import Mathlib

/-!
HealthLine-Clone search: a verification development

A shallow embedding of `healthline-clone/js/search.js` (the classes
`HealthlineSearch` and `SearchResultsPage`) together with theorems about the
scoring, ranking and filtering it performs, about the handling of short input,
the highlighting of matches, the keyboard navigation of the suggestions and
the states of the results page.

Modelling conventions

* A JavaScript string is modelled as the list of its UTF-16 code units, each
  code unit being represented by the `Char` of the same code (`Str`).  Lone
  surrogate code units are outside the model.
* `String.prototype.toLowerCase` is a host built-in; every definition that
  uses it takes it as the parameter `lower`.  `asciiLower` is the instance used
  for concrete evaluations; it agrees with the built-in on ASCII strings.
* Scores are JavaScript numbers holding small integers; they are modelled in
  `Int`, and so are the numeric options `minChars` and `maxResults`.
* `Array.prototype.sort` is stable (ECMAScript 2019) and is modelled by a
  stable insertion sort driven by the comparator, see `sort`.
* `encodeURIComponent` is a host built-in and is the parameter `encode`;
  `encodeAscii` is the instance used for concrete evaluations.
* `RegExp` and `String.prototype.replace` are modelled after the ECMAScript
  specification for a fragment of the pattern syntax, see the section on
  regular expressions.
* The page is modelled by the part of it the code reads and writes: the value
  of the search input, the suggestions container with its children and class
  markers, and `window.location.href`.

Layout

Definitions come first (built-ins, data model, `HealthlineSearch`, regular
expressions, the suggestion panel, keyboard navigation, `SearchResultsPage`,
example data and the definitions that restate the specification), then lemmas
and the theorems for the claims of the specification, each named in its doc
comment.
-/

namespace HealthLine

/-- A JavaScript string: the list of its code units. -/
abbrev Str := List Char

/-! ## String built-ins -/

/-- `s.startsWith(q)`: the code units of `q` are the first code units of `s`. -/
def startsWith : Str → Str → Bool
  | _, [] => true
  | [], _ :: _ => false
  | c :: s, d :: q => c == d && startsWith s q

/-- `s.includes(q)`: `q` occurs in `s` at some position. -/
def includes : Str → Str → Bool
  | [], q => startsWith [] q
  | c :: s, q => startsWith (c :: s) q || includes s q

/-- The `WhiteSpace` and `LineTerminator` code points of ECMAScript, which are
what `trim` strips and what `\s` matches. -/
def isWhiteSpace (c : Char) : Bool :=
  c.toNat == 0x09 || c.toNat == 0x0A || c.toNat == 0x0B || c.toNat == 0x0C ||
  c.toNat == 0x0D || c.toNat == 0x20 || c.toNat == 0xA0 || c.toNat == 0x1680 ||
  (0x2000 ≤ c.toNat && c.toNat ≤ 0x200A) || c.toNat == 0x2028 ||
  c.toNat == 0x2029 || c.toNat == 0x202F || c.toNat == 0x205F ||
  c.toNat == 0x3000 || c.toNat == 0xFEFF

/-- `s.trim()`. -/
def trim (s : Str) : Str :=
  ((s.dropWhile isWhiteSpace).reverse.dropWhile isWhiteSpace).reverse

/-- The scanning loop of `s.split(/\s+/)`: `cur` holds the piece being read
(reversed) and `inRun` tells that the previous code unit was white space, so
that a run of white space separates only once. -/
def splitWhitespace.go : Str → Str → Bool → List Str
  | [], cur, _ => [cur.reverse]
  | c :: cs, cur, inRun =>
    if isWhiteSpace c then
      if inRun then splitWhitespace.go cs [] true
      else cur.reverse :: splitWhitespace.go cs [] true
    else splitWhitespace.go cs (c :: cur) false

/-- `s.split(/\s+/)`: the pieces of `s` between maximal runs of white space.
Leading or trailing white space yields an empty first or last piece, and the
empty string yields one empty piece. -/
def splitWhitespace (s : Str) : List Str :=
  splitWhitespace.go s [] false

/-- Lowercasing of ASCII letters, code unit by code unit. -/
def asciiLower (s : Str) : Str :=
  s.map Char.toLower

/-! ## Array built-ins -/

/-- Insertion of `a` into a list ordered by the comparator `cmp`: `a` goes in
front of the first element it does not have to follow. -/
def insertSorted {α : Type} (cmp : α → α → Int) (a : α) : List α → List α
  | [] => [a]
  | b :: l => if cmp a b ≤ 0 then a :: b :: l else b :: insertSorted cmp a l

/-- `arr.sort(cmp)`: a stable sort by the comparator `cmp`, where `cmp a b > 0`
means that `a` is to come after `b`. -/
def sort {α : Type} (cmp : α → α → Int) : List α → List α
  | [] => []
  | a :: l => insertSorted cmp a (sort cmp l)

/-- `arr.slice(0, end)` for an integer `end`; a negative `end` counts back
from the length of the array. -/
def slice0 {α : Type} (l : List α) (end_ : Int) : List α :=
  if end_ < 0 then l.take ((l.length : Int) + end_).toNat
  else l.take end_.toNat

/-! ## Data model -/

/-- An article record of the data source (`data.articles`). -/
structure Article where
  id : Str
  title : Str
  excerpt : Str
  category : Str
  tags : List Str
  author : Str
  slug : Str
  image : Str
  readTime : Str
  date : Str
  deriving DecidableEq, Repr

/-- An entry of `searchIndex`, as built by `buildIndex`. -/
structure IndexEntry where
  id : Str
  title : Str
  excerpt : Str
  category : Str
  tags : List Str
  author : Str
  slug : Str
  image : Str
  readTime : Str
  date : Str
  originalTitle : Str
  originalExcerpt : Str
  deriving DecidableEq, Repr

/-- An element of the array `search` returns: `{ ...article, score }`. -/
structure SearchResult extends IndexEntry where
  score : Int
  deriving DecidableEq, Repr

/-! ## `HealthlineSearch` -/

/-- The field `maxResults` set by the constructor: `options.maxResults || 10`.
The option is absent (`none`) or an integer; `0` is falsy. -/
def maxResultsOf (option : Option Int) : Int :=
  match option with
  | none => 10
  | some m => if m = 0 then 10 else m

/-- The field `minChars` set by the constructor: `options.minChars || 2`. -/
def minCharsOf (option : Option Int) : Int :=
  match option with
  | none => 2
  | some m => if m = 0 then 2 else m

/-- `buildIndex`: the index entry of one article. -/
def indexEntry (lower : Str → Str) (article : Article) : IndexEntry :=
  { id := article.id
    title := lower article.title
    excerpt := lower article.excerpt
    category := lower article.category
    tags := article.tags.map (fun t => lower t)
    author := lower article.author
    slug := article.slug
    image := article.image
    readTime := article.readTime
    date := article.date
    originalTitle := article.title
    originalExcerpt := article.excerpt }

/-- `buildIndex`: `this.articles.map(article => ({ ... }))`. -/
def buildIndex (lower : Str → Str) (articles : List Article) : List IndexEntry :=
  articles.map (indexEntry lower)

/-- The body of the `map` callback of `search`: the score of one entry, the
statements taken in the order of the source. -/
def scoreOf (article : IndexEntry) (queryLower : Str) (queryWords : List Str) : Int :=
  let score : Int := 0
  -- Title match (highest priority)
  let score :=
    if includes article.title queryLower then
      let score := score + 100
      if startsWith article.title queryLower then score + 50 else score
    else score
  -- Exact phrase match in title
  let score := if includes article.title queryLower then score + 30 else score
  -- Category match
  let score := if includes article.category queryLower then score + 20 else score
  -- Tags match
  let score := article.tags.foldl
    (fun score tag => if includes tag queryLower then score + 15 else score) score
  -- Excerpt match
  let score := if includes article.excerpt queryLower then score + 10 else score
  -- Author match
  let score := if includes article.author queryLower then score + 5 else score
  -- Word matches
  let score := queryWords.foldl
    (fun score word =>
      let score := if includes article.title word then score + 5 else score
      if includes article.excerpt word then score + 2 else score) score
  score

/-- The `map` step of `search`: every entry with its score. -/
def scored (searchIndex : List IndexEntry) (queryLower : Str) (queryWords : List Str) :
    List SearchResult :=
  searchIndex.map (fun article =>
    { article with score := scoreOf article queryLower queryWords })

/-- `search(query)` on an instance whose fields are `searchIndex` and
`maxResults`: map to scores, keep the positive ones, sort by descending score,
slice. -/
def search (lower : Str → Str) (searchIndex : List IndexEntry) (maxResults : Int)
    (query : Str) : List SearchResult :=
  let queryLower := lower query
  let queryWords := splitWhitespace queryLower
  slice0
    (sort (fun a b => b.score - a.score)
      ((scored searchIndex queryLower queryWords).filter (fun article => article.score > 0)))
    maxResults

/-! ## Regular expressions

`highlightMatch` builds a regular expression from the query with
`new RegExp(..., 'gi')` and applies it with `String.prototype.replace`.  Both
are host built-ins; they are modelled after the ECMAScript specification
(pattern grammar of Annex B, without the `u` flag; backtracking matcher of
the section "Pattern Semantics"; `RegExp.prototype[@@replace]`) for the
fragment of the pattern syntax stated below.

The fragment: pattern characters, `.`, `^`, `$`, `|`, capturing groups,
`(?:` groups and the quantifiers `*`, `+`, `?`, `{n}`, `{n,}`, `{n,m}`, each
greedy or lazy.  A pattern that contains a backslash, a `[`, or a `(?` not
followed by `:` is outside the fragment and is reported as such.

`Canonicalize`, which the flag `i` applies to single code units, is a host
table and is the parameter `canon`; `asciiCanon` is the instance used for
concrete evaluations. -/

/-- Why no regular expression object is obtained from a pattern. -/
inductive Failure where
  /-- `new RegExp` throws a `SyntaxError`. -/
  | syntaxError : Failure
  /-- The pattern uses syntax this development does not model. -/
  | outsideFragment : Failure
  deriving DecidableEq, Repr

deriving instance DecidableEq for Except

/-- The syntax tree of a pattern of the fragment. -/
inductive Pattern where
  /-- The empty alternative. -/
  | empty : Pattern
  /-- A pattern character. -/
  | char (c : Char) : Pattern
  /-- The atom `.`. -/
  | dot : Pattern
  /-- The assertion `^`. -/
  | inputStart : Pattern
  /-- The assertion `$`. -/
  | inputEnd : Pattern
  /-- A capturing group with its number, counted from 1 by opening parentheses. -/
  | group (index : Nat) (p : Pattern) : Pattern
  /-- An alternative: a term followed by the rest. -/
  | seq (p q : Pattern) : Pattern
  /-- A disjunction `p|q`. -/
  | alt (p q : Pattern) : Pattern
  /-- A quantified atom; `max = none` stands for no upper bound. -/
  | repeat (p : Pattern) (min : Nat) (max : Option Nat) (greedy : Bool) : Pattern
  deriving DecidableEq, Repr

/-- The alternative made of the given terms. -/
def seqOf : List Pattern → Pattern
  | [] => .empty
  | [t] => t
  | t :: ts => .seq t (seqOf ts)

/-- The disjunction of the given alternatives. -/
def altOf : List Pattern → Pattern
  | [] => .empty
  | [a] => a
  | a :: rest => .alt a (altOf rest)

/-- A group that has been opened and not yet closed (or the top level). -/
structure Frame where
  /-- The number of the capturing group; `none` for `(?:` and the top level. -/
  capture : Option Nat
  /-- The alternatives closed by a `|`, most recent first. -/
  alternatives : List Pattern
  /-- The terms of the current alternative, most recent first. -/
  terms : List Pattern
  /-- Whether the most recent term is an atom that may take a quantifier. -/
  quantifiable : Bool
  deriving Repr

/-- The state of the parser. -/
structure ParserState where
  /-- The frame being filled. -/
  current : Frame
  /-- The enclosing frames, innermost first. -/
  stack : List Frame
  /-- The number of capturing groups opened so far. -/
  groups : Nat
  /-- The number of coming code units already consumed by lookahead. -/
  skip : Nat
  deriving Repr

/-- The disjunction a frame holds. -/
def Frame.body (f : Frame) : Pattern :=
  altOf ((seqOf f.terms.reverse :: f.alternatives).reverse)

/-- A fresh frame. -/
def Frame.new (capture : Option Nat) : Frame :=
  { capture := capture, alternatives := [], terms := [], quantifiable := false }

/-- Adds a term to the current alternative. -/
def ParserState.push (st : ParserState) (t : Pattern) (quantifiable : Bool) : ParserState :=
  { st with current := { st.current with terms := t :: st.current.terms,
                                         quantifiable := quantifiable } }

/-- The value of a sequence of decimal digits. -/
def natOfDigits (ds : Str) : Nat :=
  ds.foldl (fun n d => 10 * n + (d.toNat - 48)) 0

/-- Reads `n}`, `n,}` or `n,m}` at the head of `rest` (the text after a `{`):
the bounds and the number of code units read. -/
def bracedQuantifier (rest : Str) : Option (Nat × Option Nat × Nat) :=
  let ds1 := rest.takeWhile Char.isDigit
  let r1 := rest.dropWhile Char.isDigit
  if ds1.isEmpty then none
  else
    match r1 with
    | '}' :: _ => some (natOfDigits ds1, some (natOfDigits ds1), ds1.length + 1)
    | ',' :: r2 =>
      let ds2 := r2.takeWhile Char.isDigit
      match r2.dropWhile Char.isDigit with
      | '}' :: _ =>
        if ds2.isEmpty then some (natOfDigits ds1, none, ds1.length + 2)
        else some (natOfDigits ds1, some (natOfDigits ds2), ds1.length + ds2.length + 2)
      | _ => none
    | _ => none

/-- Applies a quantifier, whose text ends `consumed` code units into `rest`, to
the most recent term; a following `?` makes it lazy.  Without an atom to
repeat the pattern is malformed. -/
def ParserState.quantify (st : ParserState) (min : Nat) (max : Option Nat) (rest : Str)
    (consumed : Nat) : Except Failure ParserState :=
  if st.current.quantifiable then
    match st.current.terms with
    | [] => .error .syntaxError
    | t :: ts =>
      let isLazy := (rest.drop consumed).head? == some '?'
      .ok { st with
        current := { st.current with terms := .repeat t min max (!isLazy) :: ts,
                                     quantifiable := false }
        skip := consumed + (if isLazy then 1 else 0) }
  else .error .syntaxError

/-- One step of the parser on the code unit `c`, `rest` being the text after it. -/
def parseStep (st : ParserState) (c : Char) (rest : Str) : Except Failure ParserState :=
  if c = '\\' ∨ c = '[' then .error .outsideFragment
  else if c = '(' then
    match rest with
    | '?' :: ':' :: _ =>
      .ok { st with current := Frame.new none, stack := st.current :: st.stack, skip := 2 }
    | '?' :: _ => .error .outsideFragment
    | _ =>
      .ok { st with current := Frame.new (some (st.groups + 1)),
                    stack := st.current :: st.stack, groups := st.groups + 1 }
  else if c = ')' then
    match st.stack with
    | [] => .error .syntaxError
    | parent :: stack =>
      let atom :=
        match st.current.capture with
        | some i => Pattern.group i st.current.body
        | none => st.current.body
      .ok { st with current := { parent with terms := atom :: parent.terms, quantifiable := true },
                    stack := stack }
  else if c = '|' then
    .ok { st with current := { st.current with
            alternatives := seqOf st.current.terms.reverse :: st.current.alternatives,
            terms := [], quantifiable := false } }
  else if c = '*' then st.quantify 0 none rest 0
  else if c = '+' then st.quantify 1 none rest 0
  else if c = '?' then st.quantify 0 (some 1) rest 0
  else if c = '{' then
    match bracedQuantifier rest with
    | some (min, max, consumed) =>
      if max.any (fun m => decide (m < min)) then .error .syntaxError
      else st.quantify min max rest consumed
    | none => .ok (st.push (.char c) true)
  else if c = '^' then .ok (st.push .inputStart false)
  else if c = '$' then .ok (st.push .inputEnd false)
  else if c = '.' then .ok (st.push .dot true)
  else .ok (st.push (.char c) true)

/-- The parser's run over the pattern text; at its end every group must have
been closed. -/
def parseRun : ParserState → Str → Except Failure ParserState
  | st, [] => if st.stack.isEmpty then .ok st else .error .syntaxError
  | st, c :: rest =>
    if st.skip = 0 then
      match parseStep st c rest with
      | .error e => .error e
      | .ok st' => parseRun st' rest
    else parseRun { st with skip := st.skip - 1 } rest

/-- A regular expression object: what `new RegExp(pattern, 'gi')` yields. -/
structure RegExp where
  /-- The parsed pattern. -/
  pattern : Pattern
  /-- The number of capturing groups. -/
  groups : Nat
  deriving Repr

/-- `new RegExp(pattern, 'gi')`. -/
def RegExp.new (pattern : Str) : Except Failure RegExp :=
  match parseRun { current := Frame.new none, stack := [], groups := 0, skip := 0 } pattern with
  | .error e => .error e
  | .ok st => .ok { pattern := st.current.body, groups := st.groups }

/-- A state of the matcher: the end index reached and the captures, each the
pair of its start and end index (`none` when undefined). -/
structure MatchState where
  endIndex : Nat
  captures : List (Option (Nat × Nat))
  deriving DecidableEq, Repr

/-- A matcher continuation. -/
abbrev Continuation := MatchState → Option MatchState

/-- A matcher: it is given a state and the continuation for what follows. -/
abbrev Matcher := MatchState → Continuation → Option MatchState

/-- The line terminators, which `.` does not match. -/
def isLineTerminator (c : Char) : Bool :=
  c.toNat == 0x0A || c.toNat == 0x0D || c.toNat == 0x2028 || c.toNat == 0x2029

/-- The numbers of the capturing groups within a pattern. -/
def Pattern.groupsWithin : Pattern → List Nat
  | .group i p => i :: p.groupsWithin
  | .seq p q => p.groupsWithin ++ q.groupsWithin
  | .alt p q => p.groupsWithin ++ q.groupsWithin
  | .repeat p _ _ _ => p.groupsWithin
  | _ => []

/-- Sets the captures with the given numbers to undefined. -/
def clearCaptures (groups : List Nat) (captures : List (Option (Nat × Nat))) :
    List (Option (Nat × Nat)) :=
  groups.foldl (fun caps i => caps.set (i - 1) none) captures

/-- `CharacterSetMatcher`: consumes one code unit accepted by `accepts`. -/
def characterSetMatcher (input : Str) (accepts : Char → Bool) : Matcher :=
  fun x c =>
    match input.get? x.endIndex with
    | none => none
    | some ch => if accepts ch then c { x with endIndex := x.endIndex + 1 } else none

/-- `RepeatMatcher`.  The recursion is bounded by `fuel`; a call with more fuel
than `min` plus the number of code units left never exhausts it, since each
iteration lowers `min` or consumes input. -/
def repeatMatcher (m : Matcher) (groups : List Nat) :
    Nat → Nat → Option Nat → Bool → Matcher
  | 0, _, _, _ => fun _ _ => none
  | fuel + 1, min, max, greedy => fun x c =>
    if max = some 0 then c x
    else
      let d : Continuation := fun y =>
        if min = 0 ∧ y.endIndex = x.endIndex then none
        else repeatMatcher m groups fuel (min - 1) (max.map (fun k => k - 1)) greedy y c
      let xr : MatchState := { x with captures := clearCaptures groups x.captures }
      if min ≠ 0 then m xr d
      else if greedy then (m xr d).orElse (fun _ => c x)
      else (c x).orElse (fun _ => m xr d)

/-- `CompileSubpattern`, forward direction, flags `g` and `i`. -/
def compile (canon : Char → Char) (input : Str) : Pattern → Matcher
  | .empty => fun x c => c x
  | .char a => characterSetMatcher input (fun ch => canon ch == canon a)
  | .dot => characterSetMatcher input (fun ch => !isLineTerminator ch)
  | .inputStart => fun x c => if x.endIndex = 0 then c x else none
  | .inputEnd => fun x c => if x.endIndex = input.length then c x else none
  | .group i p => fun x c =>
    compile canon input p x (fun y =>
      c { y with captures := y.captures.set (i - 1) (some (x.endIndex, y.endIndex)) })
  | .seq p q => fun x c => compile canon input p x (fun y => compile canon input q y c)
  | .alt p q => fun x c =>
    (compile canon input p x c).orElse (fun _ => compile canon input q x c)
  | .repeat p min max greedy => fun x c =>
    repeatMatcher (compile canon input p) p.groupsWithin
      (min + (input.length - x.endIndex) + 1) min max greedy x c

/-- The matcher of a regular expression run at index `i` of `input`. -/
def RegExp.matchAt (canon : Char → Char) (re : RegExp) (input : Str) (i : Nat) :
    Option MatchState :=
  compile canon input re.pattern { endIndex := i, captures := List.replicate re.groups none }
    (fun y => some y)

/-- The text of capture `n` of a match, the empty string when undefined. -/
def captureText (input : Str) (y : MatchState) (n : Nat) : Str :=
  match (y.captures.get? (n - 1)).join with
  | none => []
  | some (s, e) => (input.drop s).take (e - s)

/-- The loop of `input.replace(re, opening + "$1" + closing)` for a global
`re` with at least one capturing group: `lastIndex` is where the next match is
looked for, `nextSourcePosition` is the end of the text already copied to
`acc`.  Every step advances `lastIndex`, so `fuel` above the length of `input`
plus one is never exhausted. -/
def replaceLoop (canon : Char → Char) (re : RegExp) (input opening closing : Str) :
    Nat → Nat → Nat → Str → Str
  | 0, _, nextSourcePosition, acc => acc ++ input.drop nextSourcePosition
  | fuel + 1, lastIndex, nextSourcePosition, acc =>
    if lastIndex > input.length then acc ++ input.drop nextSourcePosition
    else
      match re.matchAt canon input lastIndex with
      | none => replaceLoop canon re input opening closing fuel (lastIndex + 1)
          nextSourcePosition acc
      | some y =>
        let acc' :=
          if lastIndex ≥ nextSourcePosition then
            acc ++ (input.drop nextSourcePosition).take (lastIndex - nextSourcePosition)
              ++ opening ++ captureText input y 1 ++ closing
          else acc
        let next' := if lastIndex ≥ nextSourcePosition then y.endIndex else nextSourcePosition
        replaceLoop canon re input opening closing fuel
          (if y.endIndex = lastIndex then lastIndex + 1 else y.endIndex) next' acc'

/-- `input.replace(re, opening + "$1" + closing)`. -/
def replaceAll (canon : Char → Char) (re : RegExp) (input opening closing : Str) : Str :=
  replaceLoop canon re input opening closing (input.length + 2) 0 0 []

/-- `Canonicalize` on ASCII code units: the upper case letter. -/
def asciiCanon (c : Char) : Char :=
  c.toUpper

/-- The body shared by the two `highlightMatch` methods: the query is put
between parentheses, compiled, and every match is replaced by its first
capture between `opening` and `closing`. -/
def highlightWith (canon : Char → Char) (opening closing text query : Str) :
    Except Failure Str :=
  match RegExp.new ("(".toList ++ query ++ ")".toList) with
  | .error e => .error e
  | .ok regex => .ok (replaceAll canon regex text opening closing)

/-- `HealthlineSearch.highlightMatch(text, query)`. -/
def highlightMatch (canon : Char → Char) (text query : Str) : Except Failure Str :=
  highlightWith canon "<strong>".toList "</strong>".toList text query

/-- `SearchResultsPage.highlightMatch(text, query)`. -/
def SearchResultsPage.highlightMatch (canon : Char → Char) (text query : Str) :
    Except Failure Str :=
  highlightWith canon "<mark>".toList "</mark>".toList text query

/-! ## The suggestion panel -/

/-- A Category record of the data source (`data.categories`). -/
structure Category where
  id : Str
  name : Str
  deriving DecidableEq, Repr

/-- An element of class `search-suggestion` inside the suggestions container. -/
structure Suggestion where
  /-- Whether it carries the class `no-results` (the placeholder). -/
  noResults : Bool
  /-- Whether it carries the class `active`. -/
  active : Bool
  /-- Its `data-slug` attribute, which the placeholder lacks. -/
  slug : Option Str
  /-- The markup inside its `search-suggestion-text`. -/
  text : Str
  /-- The text of its `search-suggestion-category`, which the placeholder lacks. -/
  category : Option Str
  deriving DecidableEq, Repr

/-- The suggestions container: its children and whether it carries the class
`active`, which makes the panel visible. -/
structure Container where
  children : List Suggestion
  active : Bool
  deriving DecidableEq, Repr

/-- The state of a `HealthlineSearch` instance together with the part of the
page it acts on. -/
structure HealthlineSearch where
  /-- `searchInput.value`. -/
  value : Str
  /-- `suggestionsContainer`, which may be absent. -/
  suggestionsContainer : Option Container
  minChars : Int
  maxResults : Int
  categories : List Category
  searchIndex : List IndexEntry
  /-- `window.location.href`. -/
  href : Str
  deriving DecidableEq, Repr

/-- `getCategoryName(categoryId)`. -/
def getCategoryName (categories : List Category) (categoryId : Str) : Str :=
  match categories.find? (fun c => c.id == categoryId) with
  | some category => category.name
  | none => categoryId

/-- `hideSuggestions()`. -/
def hideSuggestions (self : HealthlineSearch) : HealthlineSearch :=
  match self.suggestionsContainer with
  | some container =>
    let hidden : Container := { container with active := false }
    { self with suggestionsContainer := some hidden }
  | none => self

/-- The element `showSuggestions` renders for one result. -/
def renderSuggestion (canon : Char → Char) (categories : List Category) (query : Str)
    (result : SearchResult) : Except Failure Suggestion :=
  match highlightMatch canon result.originalTitle query with
  | .error e => .error e
  | .ok text =>
    .ok { noResults := false
          active := false
          slug := some result.slug
          text := text
          category := some (getCategoryName categories result.category) }

/-- The `results.map(...)` of `showSuggestions`; an exception raised for one
result ends the rendering. -/
def renderSuggestions (canon : Char → Char) (categories : List Category) (query : Str) :
    List SearchResult → Except Failure (List Suggestion)
  | [] => .ok []
  | result :: results =>
    match renderSuggestion canon categories query result with
    | .error e => .error e
    | .ok suggestion =>
      match renderSuggestions canon categories query results with
      | .error e => .error e
      | .ok suggestions => .ok (suggestion :: suggestions)

/-- The placeholder `showSuggestions` renders when there is no result. -/
def noResultsPlaceholder (query : Str) : Suggestion :=
  { noResults := true
    active := false
    slug := none
    text := "No results found for \"".toList ++ query ++ "\"".toList
    category := none }

/-- `showSuggestions(results, query)`. -/
def showSuggestions (canon : Char → Char) (self : HealthlineSearch)
    (results : List SearchResult) (query : Str) : Except Failure HealthlineSearch :=
  match self.suggestionsContainer with
  | none => .ok self
  | some _ =>
    if results.length = 0 then
      let container : Container := { children := [noResultsPlaceholder query], active := true }
      .ok { self with suggestionsContainer := some container }
    else
      match renderSuggestions canon self.categories query results with
      | .error e => .error e
      | .ok children =>
        let container : Container := { children := children, active := true }
        .ok { self with suggestionsContainer := some container }

/-- `handleInput()`. -/
def handleInput (lower : Str → Str) (canon : Char → Char) (self : HealthlineSearch) :
    Except Failure HealthlineSearch :=
  let query := trim self.value
  if (query.length : Int) < self.minChars then .ok (hideSuggestions self)
  else
    let results := search lower self.searchIndex self.maxResults query
    showSuggestions canon self results query

/-! ## Keyboard navigation -/

/-- The key of a `keydown` event, by the value of `e.key`. -/
inductive Key where
  | arrowDown : Key
  | arrowUp : Key
  | enter : Key
  | escape : Key
  /-- Any other key, with its name. -/
  | other (name : Str) : Key
  deriving DecidableEq, Repr

/-- The position of the element `querySelector('.search-suggestion.active')`
finds among the suggestions: the first one that carries the class `active`. -/
def activeIndex : List Suggestion → Option Nat
  | [] => none
  | s :: rest => if s.active then some 0 else (activeIndex rest).map (fun i => i + 1)

/-- `classList.add('active')` (for `true`) or `classList.remove('active')` (for
`false`) on the suggestion at position `i`. -/
def setActive (b : Bool) : Nat → List Suggestion → List Suggestion
  | _, [] => []
  | 0, s :: rest => { s with active := b } :: rest
  | i + 1, s :: rest => s :: setActive b i rest

/-- The instance with the children of its suggestions container replaced. -/
def withChildren (self : HealthlineSearch) (children : List Suggestion) : HealthlineSearch :=
  match self.suggestionsContainer with
  | some container =>
    let changed : Container := { container with children := children }
    { self with suggestionsContainer := some changed }
  | none => self

/-- The text a template literal gives for `dataset.slug`: an absent attribute
reads `undefined`. -/
def slugText (slug : Option Str) : Str :=
  match slug with
  | some s => s
  | none => "undefined".toList

/-- `performSearch()`; `encode` stands for the built-in `encodeURIComponent`. -/
def performSearch (encode : Str → Str) (self : HealthlineSearch) : HealthlineSearch :=
  let query := trim self.value
  if query ≠ [] then
    { self with href := "pages/search-results.html?q=".toList ++ encode query }
  else self

/-- `handleKeydown(e)`.  The suggestions are the children of the container (an
absent container has none); the next and the previous element sibling of the
active item are its neighbours in that list. -/
def handleKeydown (encode : Str → Str) (self : HealthlineSearch) (key : Key) :
    HealthlineSearch :=
  let suggestions : List Suggestion :=
    match self.suggestionsContainer with
    | some container => container.children
    | none => []
  let activeItem := activeIndex suggestions
  match key with
  | .arrowDown =>
    match activeItem with
    | none =>
      if suggestions.length ≠ 0 then withChildren self (setActive true 0 suggestions)
      else self
    | some i =>
      if i + 1 < suggestions.length then
        withChildren self (setActive true (i + 1) (setActive false i suggestions))
      else self
  | .arrowUp =>
    match activeItem with
    | none => self
    | some i =>
      if 0 < i then withChildren self (setActive true (i - 1) (setActive false i suggestions))
      else self
  | .enter =>
    match activeItem with
    | some i =>
      match suggestions.get? i with
      | some item =>
        { self with href := "pages/articles/article.html?slug=".toList ++ slugText item.slug }
      | none => self
    | none => performSearch encode self
  | .escape => hideSuggestions self
  | .other _ => self

/-- The instance after a sequence of key events. -/
def handleKeys (encode : Str → Str) (self : HealthlineSearch) (keys : List Key) :
    HealthlineSearch :=
  keys.foldl (handleKeydown encode) self

/-- `encodeURIComponent` on ASCII strings: the unreserved characters stay, any
other code unit becomes `%` and its two hexadecimal digits. -/
def encodeAscii (s : Str) : Str :=
  s.flatMap (fun c =>
    if c.isAlphanum || c ∈ ['-', '_', '.', '!', '~', '*', '\'', '(', ')'] then [c]
    else ['%', (Nat.digitChar (c.toNat / 16)).toUpper, (Nat.digitChar (c.toNat % 16)).toUpper])

/-! ## `SearchResultsPage` -/

/-- The `filter` callback of `searchArticles`. -/
def articleMatches (lower : Str → Str) (queryLower : Str) (article : Article) : Bool :=
  let titleMatch := includes (lower article.title) queryLower
  let excerptMatch := includes (lower article.excerpt) queryLower
  let categoryMatch := includes (lower article.category) queryLower
  let tagsMatch := article.tags.any (fun tag => includes (lower tag) queryLower)
  titleMatch || excerptMatch || categoryMatch || tagsMatch

/-- The `sort` comparator of `searchArticles`: title matches first. -/
def titleFirst (lower : Str → Str) (queryLower : Str) (a b : Article) : Int :=
  let aTitleMatch := includes (lower a.title) queryLower
  let bTitleMatch := includes (lower b.title) queryLower
  if aTitleMatch && !bTitleMatch then -1
  else if !aTitleMatch && bTitleMatch then 1
  else 0

/-- `searchArticles(query)` on an instance whose field is `articles`. -/
def searchArticles (lower : Str → Str) (articles : List Article) (query : Str) :
    List Article :=
  let queryLower := lower query
  sort (titleFirst lower queryLower) (articles.filter (articleMatches lower queryLower))

/-- An `article` card of the results grid. -/
structure Card where
  slug : Str
  image : Str
  /-- The `alt` text of the image, the title of the article. -/
  alt : Str
  /-- The category label. -/
  category : Str
  /-- The markup of the title, matches highlighted. -/
  title : Str
  /-- The markup of the excerpt, matches highlighted. -/
  excerpt : Str
  author : Str
  readTime : Str
  deriving DecidableEq, Repr

/-- What the info container shows. -/
inductive InfoContent where
  /-- A plain text, set through `textContent`. -/
  | text (t : Str) : InfoContent
  /-- The count summary `Found N result(s) for "query"`; `plural` tells whether
  the `s` is written. -/
  | found (count : Nat) (plural : Bool) (query : Str) : InfoContent
  deriving DecidableEq, Repr

/-- What the results container shows. -/
inductive ResultsContent where
  /-- Some markup; `html []` is the empty container. -/
  | html (markup : Str) : ResultsContent
  /-- The block `No results found` with its link back to the homepage. -/
  | noResults (query : Str) : ResultsContent
  /-- The grid of cards. -/
  | grid (cards : List Card) : ResultsContent
  deriving DecidableEq, Repr

/-- The state of a `SearchResultsPage` instance together with the two
containers it writes to, either of which may be absent. -/
structure SearchResultsPage where
  infoContainer : Option InfoContent
  resultsContainer : Option ResultsContent
  articles : List Article
  categories : List Category
  deriving DecidableEq, Repr

/-- The text `showNoQuery` writes. -/
def enterSearchTerm : Str :=
  "Enter a search term to find articles.".toList

/-- `showNoQuery()`. -/
def showNoQuery (page : SearchResultsPage) : SearchResultsPage :=
  { page with
    infoContainer := page.infoContainer.map (fun _ => InfoContent.text enterSearchTerm)
    resultsContainer := page.resultsContainer.map (fun _ => ResultsContent.html []) }

/-- The card `renderResults` renders for one article. -/
def renderCard (canon : Char → Char) (categories : List Category) (query : Str)
    (article : Article) : Except Failure Card :=
  match SearchResultsPage.highlightMatch canon article.title query with
  | .error e => .error e
  | .ok title =>
    match SearchResultsPage.highlightMatch canon article.excerpt query with
    | .error e => .error e
    | .ok excerpt =>
      .ok { slug := article.slug
            image := article.image
            alt := article.title
            category := getCategoryName categories article.category
            title := title
            excerpt := excerpt
            author := article.author
            readTime := article.readTime }

/-- The `results.map(...)` of `renderResults`; an exception raised for one
article ends the rendering. -/
def renderCards (canon : Char → Char) (categories : List Category) (query : Str) :
    List Article → Except Failure (List Card)
  | [] => .ok []
  | article :: articles =>
    match renderCard canon categories query article with
    | .error e => .error e
    | .ok card =>
      match renderCards canon categories query articles with
      | .error e => .error e
      | .ok cards => .ok (card :: cards)

/-- `renderResults(results, query)`: the page afterwards and the exception
thrown, if any.  The count summary is written first, so it stays when the
rendering of the cards throws. -/
def renderResults (canon : Char → Char) (page : SearchResultsPage) (results : List Article)
    (query : Str) : SearchResultsPage × Option Failure :=
  let page1 : SearchResultsPage :=
    { page with infoContainer := page.infoContainer.map (fun _ =>
        InfoContent.found results.length (decide (results.length ≠ 1)) query) }
  match page1.resultsContainer with
  | none => (page1, none)
  | some _ =>
    if results.length = 0 then
      ({ page1 with resultsContainer := some (ResultsContent.noResults query) }, none)
    else
      match renderCards canon page1.categories query results with
      | .error e => (page1, some e)
      | .ok cards => ({ page1 with resultsContainer := some (ResultsContent.grid cards) }, none)

/-- `displayResults()`; `q` is what `urlParams.get('q')` returns, `none` for
an absent parameter. -/
def displayResults (lower : Str → Str) (canon : Char → Char) (page : SearchResultsPage)
    (q : Option Str) : SearchResultsPage × Option Failure :=
  let query : Str :=
    match q with
    | some value => if value ≠ [] then value else []
    | none => []
  if query = [] then (showNoQuery page, none)
  else
    let results := searchArticles lower page.articles query
    renderResults canon page results query

/-! ## Example data -/

/-- An article with the given identifier (also its slug), title, excerpt and
tags, the other fields empty. -/
def mkArticle (id title excerpt : String) (tags : List String) : Article :=
  { id := id.toList
    title := title.toList
    excerpt := excerpt.toList
    category := []
    tags := tags.map String.toList
    author := []
    slug := id.toList
    image := []
    readTime := []
    date := [] }

/-- Entry `A` of the specification's example. -/
def articleA : Article := mkArticle "A" "Managing Diabetes" "" []

/-- Entry `B` of the specification's example. -/
def articleB : Article := mkArticle "B" "Diet Tips" "" ["diabetes"]

/-- An entry titled as `B` whose ten tags each contain "diabetes". -/
def articleManyTags : Article :=
  mkArticle "B10" "Diet Tips" ""
    ["diabetes", "diabetes type 1", "diabetes type 2", "prediabetes", "diabetes diet",
     "diabetes care", "gestational diabetes", "diabetes risk", "diabetes test",
     "diabetes symptoms"]

/-- An article whose title holds a parenthesis. -/
def articleVitaminD : Article :=
  mkArticle "vitamin-d" "Vitamin D (cholecalciferol) benefits" "" ["vitamins"]

/-- A `HealthlineSearch` instance over the given articles, constructed without
options, with a visible panel showing one suggestion and with `value` typed
into the search input. -/
def exampleSearch (articles : List Article) (value : String) : HealthlineSearch :=
  { value := value.toList
    suggestionsContainer := some
      { children := [{ noResults := false, active := false, slug := some "A".toList,
                       text := "Managing <strong>Di</strong>abetes".toList,
                       category := some [] }]
        active := true }
    minChars := minCharsOf none
    maxResults := maxResultsOf none
    categories := []
    searchIndex := buildIndex asciiLower articles
    href := "index.html".toList }

/-- A rendered suggestion, not active, for the article with the given slug. -/
def suggestionFor (slug title : String) : Suggestion :=
  { noResults := false
    active := false
    slug := some slug.toList
    text := title.toList
    category := some [] }

/-- An instance whose panel has just been rendered with three suggestions,
the text "di" standing in the search input. -/
def examplePanel : HealthlineSearch :=
  { value := "di".toList
    suggestionsContainer := some
      ({ children := [suggestionFor "A" "Managing <strong>Di</strong>abetes",
                      suggestionFor "B" "<strong>Di</strong>et Tips",
                      suggestionFor "C" "<strong>Di</strong>gestion"],
         active := true } : Container)
    minChars := minCharsOf none
    maxResults := maxResultsOf none
    categories := []
    searchIndex := []
    href := "index.html".toList }

/-- An article whose category identifier has an upper case letter. -/
def articleNutrition : Article :=
  { mkArticle "N" "Eating Well" "" [] with category := "Nutrition".toList }

/-- A Category collection holding the category of `articleNutrition`. -/
def exampleCategories : List Category :=
  [{ id := "Nutrition".toList, name := "Nutrition & Diet".toList }]

/-- The instance of `exampleSearch` with the Category collection
`exampleCategories`. -/
def exampleSearchWithCategories (articles : List Article) (value : String) :
    HealthlineSearch :=
  { exampleSearch articles value with categories := exampleCategories }

/-- A results page over the given articles, its two containers holding the
markup of an empty page. -/
def examplePage (articles : List Article) : SearchResultsPage :=
  { infoContainer := some (InfoContent.text [])
    resultsContainer := some (ResultsContent.html "<p>Loading</p>".toList)
    articles := articles
    categories := exampleCategories }

/-! ## Specification-side definitions -/

/-- The score as the specification states it, for the lowercased query `ql`
and its list of pieces `T`. -/
def claimedScore (e : IndexEntry) (ql : Str) (T : List Str) : Int :=
  (if ql <:+: e.title then 130 else 0) + (if ql <+: e.title then 50 else 0)
    + (if ql <:+: e.category then 20 else 0)
    + 15 * ((e.tags.filter (fun tag => decide (ql <:+: tag))).length : Int)
    + (if ql <:+: e.excerpt then 10 else 0) + (if ql <:+: e.author then 5 else 0)
    + (T.map (fun t =>
        (if t <:+: e.title then (5 : Int) else 0) + (if t <:+: e.excerpt then 2 else 0))).sum

/-- The criterion of the results page as the specification states it: the
lowercased query `ql` is a substring of the lowercased title, excerpt or
category of the article, or of one of its lowercased tags. -/
def matchesQuery (lower : Str → Str) (ql : Str) (a : Article) : Prop :=
  ql <:+: lower a.title ∨ ql <:+: lower a.excerpt ∨ ql <:+: lower a.category ∨
    ∃ tag ∈ a.tags, ql <:+: lower tag

instance (lower : Str → Str) (ql : Str) (a : Article) : Decidable (matchesQuery lower ql a) := by
  unfold matchesQuery
  infer_instance

/-- The `SyntaxCharacter`s of the pattern grammar. -/
def isSyntaxCharacter (c : Char) : Bool :=
  c = '^' || c = '$' || c = '\\' || c = '.' || c = '*' || c = '+' || c = '?' || c = '(' ||
  c = ')' || c = '[' || c = ']' || c = '{' || c = '}' || c = '|'

/-- Whether `query` stands at the head of `text` when case is ignored, that is
up to `canon`, code unit by code unit. -/
def startsWithIgnoringCase (canon : Char → Char) : Str → Str → Bool
  | _, [] => true
  | [], _ :: _ => false
  | c :: text, d :: query => canon c == canon d && startsWithIgnoringCase canon text query

/-- The text with the occurrences of `query`, case ignored, put between
`opening` and `closing`: the text is read from the left, an occurrence found
is wrapped and reading goes on after it.  `fuel` bounds the recursion; the
length of the text is enough for a non-empty query. -/
def wrapOccurrences (canon : Char → Char) (opening closing query : Str) : Nat → Str → Str
  | 0, text => text
  | _ + 1, [] => []
  | fuel + 1, c :: text =>
    if startsWithIgnoringCase canon (c :: text) query then
      opening ++ (c :: text).take query.length ++ closing
        ++ wrapOccurrences canon opening closing query fuel ((c :: text).drop query.length)
    else c :: wrapOccurrences canon opening closing query fuel text

/-- The suggestions of an instance: the children of its container, none when
the container is absent. -/
def suggestionsOf (self : HealthlineSearch) : List Suggestion :=
  match self.suggestionsContainer with
  | some container => container.children
  | none => []

/-- The suggestion list `items` in a state of the navigation: `none` is the
state without active item, `some i` the state in which item `i`, and no
other, is active. -/
def markActive : Option Nat → List Suggestion → List Suggestion
  | _, [] => []
  | none, s :: rest => { s with active := false } :: markActive none rest
  | some 0, s :: rest => { s with active := true } :: markActive none rest
  | some (i + 1), s :: rest => { s with active := false } :: markActive (some i) rest

/-- The navigation state after ArrowDown over `n` suggestions. -/
def afterArrowDown (n : Nat) : Option Nat → Option Nat
  | none => if n ≠ 0 then some 0 else none
  | some i => if i + 1 < n then some (i + 1) else some i

/-- The navigation state after ArrowUp. -/
def afterArrowUp : Option Nat → Option Nat
  | none => none
  | some 0 => some 0
  | some (i + 1) => some i

/-! ## Lemmas on the string built-ins -/

theorem startsWith_iff (s q : Str) : startsWith s q = true ↔ q <+: s := by
  induction s generalizing q with
  | nil => cases q <;> simp [startsWith]
  | cons c s ih =>
    cases q with
    | nil => simp [startsWith]
    | cons d q =>
      rw [startsWith, Bool.and_eq_true, ih, List.cons_prefix_cons, beq_iff_eq]
      exact and_congr_left' eq_comm

theorem includes_iff (s q : Str) : includes s q = true ↔ q <:+: s := by
  induction s with
  | nil =>
    rw [includes, startsWith_iff]
    simp
  | cons c s ih =>
    rw [includes, Bool.or_eq_true, startsWith_iff, ih, List.infix_cons_iff]

theorem foldl_cond_add {α : Type} (p : α → Bool) (k : Int) (l : List α) (init : Int) :
    l.foldl (fun score x => if p x then score + k else score) init
      = init + k * ((l.filter p).length : Int) := by
  induction l generalizing init with
  | nil => simp
  | cons x l ih =>
    rw [List.foldl_cons, ih, List.filter_cons]
    by_cases hx : p x = true
    · simp only [hx, if_true, List.length_cons]
      push_cast
      ring
    · simp only [hx, if_false]
      simp

theorem foldl_words (title excerpt : Str) (ws : List Str) (init : Int) :
    ws.foldl (fun score word =>
        let score := if includes title word then score + 5 else score
        if includes excerpt word then score + 2 else score) init
      = init + (ws.map (fun w =>
          (if w <:+: title then (5 : Int) else 0) + (if w <:+: excerpt then 2 else 0))).sum := by
  induction ws generalizing init with
  | nil => simp
  | cons w ws ih =>
    rw [List.foldl_cons, ih, List.map_cons, List.sum_cons]
    by_cases h1 : w <:+: title <;> by_cases h2 : w <:+: excerpt <;>
      simp [h1, h2, (includes_iff _ _).mpr, includes_iff] <;> ring

/-! ## Lemmas on the array built-ins -/

theorem insertSorted_perm {α : Type} (cmp : α → α → Int) (a : α) (l : List α) :
    (insertSorted cmp a l).Perm (a :: l) := by
  induction l with
  | nil => exact List.Perm.refl _
  | cons b l ih =>
    rw [insertSorted]
    split
    · exact List.Perm.refl _
    · exact (List.Perm.cons b ih).trans (List.Perm.swap a b l)

theorem sort_perm {α : Type} (cmp : α → α → Int) (l : List α) : (sort cmp l).Perm l := by
  induction l with
  | nil => exact List.Perm.refl _
  | cons a l ih =>
    rw [sort]
    exact (insertSorted_perm cmp a _).trans (List.Perm.cons a ih)

theorem insertSorted_pairwise {α : Type} (cmp : α → α → Int)
    (htotal : ∀ a b, cmp a b ≤ 0 ∨ cmp b a ≤ 0)
    (htrans : ∀ a b c, cmp a b ≤ 0 → cmp b c ≤ 0 → cmp a c ≤ 0)
    (a : α) (l : List α) (hl : l.Pairwise (fun x y => cmp x y ≤ 0)) :
    (insertSorted cmp a l).Pairwise (fun x y => cmp x y ≤ 0) := by
  induction l with
  | nil => simp [insertSorted]
  | cons b l ih =>
    rw [List.pairwise_cons] at hl
    rw [insertSorted]
    split
    · rename_i hab
      refine List.pairwise_cons.mpr ⟨?_, List.pairwise_cons.mpr hl⟩
      intro x hx
      rcases List.mem_cons.mp hx with rfl | hx
      · exact hab
      · exact htrans _ _ _ hab (hl.1 x hx)
    · rename_i hab
      refine List.pairwise_cons.mpr ⟨?_, ih hl.2⟩
      intro x hx
      rcases List.mem_cons.mp ((insertSorted_perm cmp a l).mem_iff.mp hx) with rfl | hx
      · exact (htotal _ _).resolve_right hab
      · exact hl.1 x hx

theorem sort_pairwise {α : Type} (cmp : α → α → Int)
    (htotal : ∀ a b, cmp a b ≤ 0 ∨ cmp b a ≤ 0)
    (htrans : ∀ a b c, cmp a b ≤ 0 → cmp b c ≤ 0 → cmp a c ≤ 0) (l : List α) :
    (sort cmp l).Pairwise (fun x y => cmp x y ≤ 0) := by
  induction l with
  | nil => simp [sort]
  | cons a l ih =>
    rw [sort]
    exact insertSorted_pairwise cmp htotal htrans a _ ih

/-- Stability: a class of elements that the comparator never orders strictly
keeps its order under insertion. -/
theorem insertSorted_filter {α : Type} (cmp : α → α → Int) (p : α → Bool)
    (hp : ∀ a b, p a = true → p b = true → cmp a b ≤ 0) (a : α) (l : List α) :
    (insertSorted cmp a l).filter p = (a :: l).filter p := by
  induction l with
  | nil => rfl
  | cons b l ih =>
    rw [insertSorted]
    split
    · rfl
    · rename_i hab
      rw [List.filter_cons, ih]
      by_cases ha : p a = true
      · have hb : p b = false := by
          rw [← Bool.not_eq_true]
          exact fun hb => hab (hp a b ha hb)
        simp [List.filter_cons, ha, hb]
      · simp [List.filter_cons, ha]

theorem sort_filter {α : Type} (cmp : α → α → Int) (p : α → Bool)
    (hp : ∀ a b, p a = true → p b = true → cmp a b ≤ 0) (l : List α) :
    (sort cmp l).filter p = l.filter p := by
  induction l with
  | nil => rfl
  | cons a l ih =>
    rw [sort, insertSorted_filter cmp p hp, List.filter_cons, List.filter_cons, ih]

theorem slice0_eq_take {α : Type} (l : List α) (end_ : Int) :
    ∃ k : Nat, slice0 l end_ = l.take k := by
  unfold slice0
  split
  · exact ⟨_, rfl⟩
  · exact ⟨_, rfl⟩

theorem slice0_length_le {α : Type} (l : List α) (end_ : Int) (h : 0 ≤ end_) :
    ((slice0 l end_).length : Int) ≤ end_ := by
  unfold slice0
  rw [if_neg (not_lt.mpr h), List.length_take]
  have h1 : ((min end_.toNat l.length : Nat) : Int) ≤ (end_.toNat : Int) :=
    Int.ofNat_le.mpr (Nat.min_le_left _ _)
  rw [Int.toNat_of_nonneg h] at h1
  exact h1

theorem slice0_of_length_le {α : Type} (l : List α) (end_ : Int)
    (h : (l.length : Int) ≤ end_) : slice0 l end_ = l := by
  unfold slice0
  have h0 : (0 : Int) ≤ end_ := le_trans (Int.natCast_nonneg _) h
  rw [if_neg (not_lt.mpr h0)]
  apply List.take_of_length_le
  omega

/-! ## Lemmas on scoring -/

theorem scoreOf_eq_claimedScore (e : IndexEntry) (ql : Str) (T : List Str) :
    scoreOf e ql T = claimedScore e ql T := by
  unfold scoreOf claimedScore
  simp only [foldl_words, foldl_cond_add]
  have hfilter : e.tags.filter (fun tag => includes tag ql)
      = e.tags.filter (fun tag => decide (ql <:+: tag)) := by
    apply List.filter_congr
    intro t _
    rw [Bool.eq_iff_iff, includes_iff]
    simp
  rw [hfilter]
  simp only [includes_iff, startsWith_iff]
  have hpi : ql <+: e.title → ql <:+: e.title := fun h => h.isInfix
  split_ifs <;> first | ring1 | exact absurd (hpi ‹_›) ‹_›

theorem claimedScore_nonneg (e : IndexEntry) (ql : Str) (T : List Str) :
    0 ≤ claimedScore e ql T := by
  unfold claimedScore
  have hsum : 0 ≤ (T.map (fun t =>
      (if t <:+: e.title then (5 : Int) else 0) + (if t <:+: e.excerpt then 2 else 0))).sum := by
    apply List.sum_nonneg
    intro x hx
    rw [List.mem_map] at hx
    obtain ⟨t, _, rfl⟩ := hx
    split <;> split <;> norm_num
  have h1 : (0 : Int) ≤ if ql <:+: e.title then 130 else 0 := by split <;> norm_num
  have h2 : (0 : Int) ≤ if ql <+: e.title then 50 else 0 := by split <;> norm_num
  have h3 : (0 : Int) ≤ if ql <:+: e.category then 20 else 0 := by split <;> norm_num
  have h4 : (0 : Int) ≤ if ql <:+: e.excerpt then 10 else 0 := by split <;> norm_num
  have h5 : (0 : Int) ≤ if ql <:+: e.author then 5 else 0 := by split <;> norm_num
  have h6 : (0 : Int) ≤ ((e.tags.filter (fun tag => decide (ql <:+: tag))).length : Int) :=
    Int.natCast_nonneg _
  linarith

/-! ## Lemmas on `search` -/

theorem mem_scored (searchIndex : List IndexEntry) (ql : Str) (T : List Str)
    (r : SearchResult) (h : r ∈ scored searchIndex ql T) :
    r.toIndexEntry ∈ searchIndex ∧ r.score = scoreOf r.toIndexEntry ql T := by
  unfold scored at h
  rw [List.mem_map] at h
  obtain ⟨e, he, rfl⟩ := h
  exact ⟨he, rfl⟩

theorem search_eq_take (lower : Str → Str) (searchIndex : List IndexEntry) (maxResults : Int)
    (query : Str) :
    ∃ k : Nat, search lower searchIndex maxResults query
      = (sort (fun a b : SearchResult => b.score - a.score)
          ((scored searchIndex (lower query) (splitWhitespace (lower query))).filter
            (fun article => article.score > 0))).take k :=
  slice0_eq_take _ _

theorem mem_search (lower : Str → Str) (searchIndex : List IndexEntry) (maxResults : Int)
    (query : Str) (r : SearchResult) (h : r ∈ search lower searchIndex maxResults query) :
    r ∈ scored searchIndex (lower query) (splitWhitespace (lower query)) ∧ 0 < r.score := by
  obtain ⟨k, hk⟩ := search_eq_take lower searchIndex maxResults query
  rw [hk] at h
  have h1 := (sort_perm _ _).mem_iff.mp (List.mem_of_mem_take h)
  rw [List.mem_filter] at h1
  exact ⟨h1.1, by simpa using h1.2⟩

theorem search_pairwise (lower : Str → Str) (searchIndex : List IndexEntry) (maxResults : Int)
    (query : Str) :
    (search lower searchIndex maxResults query).Pairwise (fun a b => b.score ≤ a.score) := by
  obtain ⟨k, hk⟩ := search_eq_take lower searchIndex maxResults query
  rw [hk]
  have hs := sort_pairwise (fun a b : SearchResult => b.score - a.score)
    (fun a b => by show b.score - a.score ≤ 0 ∨ a.score - b.score ≤ 0; omega)
    (fun a b c h1 h2 => by
      have h1' : b.score - a.score ≤ 0 := h1
      have h2' : c.score - b.score ≤ 0 := h2
      show c.score - a.score ≤ 0; omega)
    ((scored searchIndex (lower query) (splitWhitespace (lower query))).filter
      (fun article => article.score > 0))
  refine (hs.sublist (List.take_sublist k _)).imp ?_
  intro a b h
  have h' : b.score - a.score ≤ 0 := h
  omega

theorem splitWhitespace_go_within (cs cur : Str) (inRun : Bool) (t : Str)
    (h : t ∈ splitWhitespace.go cs cur inRun) : t <:+: cur.reverse ++ cs := by
  induction cs generalizing cur inRun with
  | nil =>
    rw [splitWhitespace.go, List.mem_singleton] at h
    rw [h, List.append_nil]
  | cons c cs ih =>
    have htail : ∀ u : Str, u <:+: cs → u <:+: cur.reverse ++ c :: cs := fun u hu =>
      hu.trans ((List.suffix_cons c cs).isInfix.trans
        (List.suffix_append cur.reverse (c :: cs)).isInfix)
    rw [splitWhitespace.go] at h
    split at h
    · split at h
      · exact htail t (by simpa using ih [] true h)
      · rcases List.mem_cons.mp h with rfl | h
        · exact (List.prefix_append _ _).isInfix
        · exact htail t (by simpa using ih [] true h)
    · have := ih (c :: cur) false h
      simpa using this

theorem splitWhitespace_within (s t : Str) (h : t ∈ splitWhitespace s) : t <:+: s := by
  simpa using splitWhitespace_go_within s [] false t h

theorem sum_map_le_mul {α : Type} (l : List α) (f : α → Int) (c : Int)
    (h : ∀ x ∈ l, f x ≤ c) : (l.map f).sum ≤ c * l.length := by
  induction l with
  | nil => simp
  | cons x l ih =>
    rw [List.map_cons, List.sum_cons, List.length_cons]
    have h1 := h x (List.mem_cons_self x l)
    have h2 := ih (fun y hy => h y (List.mem_cons_of_mem x hy))
    push_cast
    linarith

theorem mul_le_sum_map {α : Type} (l : List α) (f : α → Int) (c : Int)
    (h : ∀ x ∈ l, c ≤ f x) : c * l.length ≤ (l.map f).sum := by
  induction l with
  | nil => simp
  | cons x l ih =>
    rw [List.map_cons, List.sum_cons, List.length_cons]
    have h1 := h x (List.mem_cons_self x l)
    have h2 := ih (fun y hy => h y (List.mem_cons_of_mem x hy))
    push_cast
    linarith

/-- An entry whose title contains the whole query scores at least 130 plus 5
for every piece of the query. -/
theorem claimedScore_title_ge (a : IndexEntry) (ql : Str) (ha : ql <:+: a.title) :
    130 + 5 * ((splitWhitespace ql).length : Int) ≤ claimedScore a ql (splitWhitespace ql) := by
  unfold claimedScore
  have hsum := mul_le_sum_map (splitWhitespace ql) (fun t =>
      (if t <:+: a.title then (5 : Int) else 0) + (if t <:+: a.excerpt then 2 else 0)) 5
    (by
      intro t ht
      have : t <:+: a.title := (splitWhitespace_within ql t ht).trans ha
      show 5 ≤ (if t <:+: a.title then (5 : Int) else 0) + (if t <:+: a.excerpt then 2 else 0)
      rw [if_pos this]
      split <;> norm_num)
  have h2 : (0 : Int) ≤ if ql <+: a.title then 50 else 0 := by split <;> norm_num
  have h3 : (0 : Int) ≤ if ql <:+: a.category then 20 else 0 := by split <;> norm_num
  have h4 : (0 : Int) ≤ if ql <:+: a.excerpt then 10 else 0 := by split <;> norm_num
  have h5 : (0 : Int) ≤ if ql <:+: a.author then 5 else 0 := by split <;> norm_num
  have h6 : (0 : Int) ≤ ((a.tags.filter (fun tag => decide (ql <:+: tag))).length : Int) :=
    Int.natCast_nonneg _
  rw [if_pos ha]
  linarith

/-- An entry that matches the query in its tags only scores at most 15 for
every matching tag plus 7 for every piece of the query. -/
theorem claimedScore_tags_only_le (b : IndexEntry) (ql : Str) (T : List Str)
    (hb : ¬ ql <:+: b.title ∧ ¬ ql <:+: b.excerpt ∧ ¬ ql <:+: b.category ∧ ¬ ql <:+: b.author) :
    claimedScore b ql T
      ≤ 15 * ((b.tags.filter (fun tag => decide (ql <:+: tag))).length : Int)
          + 7 * (T.length : Int) := by
  unfold claimedScore
  have hsum := sum_map_le_mul T (fun t =>
      (if t <:+: b.title then (5 : Int) else 0) + (if t <:+: b.excerpt then 2 else 0)) 7
    (by
      intro t _
      show (if t <:+: b.title then (5 : Int) else 0) + (if t <:+: b.excerpt then 2 else 0) ≤ 7
      split <;> split <;> norm_num)
  have hp : ¬ ql <+: b.title := fun h => hb.1 h.isInfix
  rw [if_neg hb.1, if_neg hp, if_neg hb.2.1, if_neg hb.2.2.1, if_neg hb.2.2.2]
  linarith

/-! ## Lemmas on `searchArticles` -/

theorem articleMatches_iff (lower : Str → Str) (ql : Str) (a : Article) :
    articleMatches lower ql a = true ↔
      (ql <:+: lower a.title ∨ ql <:+: lower a.excerpt ∨ ql <:+: lower a.category ∨
        ∃ tag ∈ a.tags, ql <:+: lower tag) := by
  unfold articleMatches
  simp only [Bool.or_eq_true, List.any_eq_true, includes_iff]
  tauto

theorem titleFirst_total (lower : Str → Str) (ql : Str) (a b : Article) :
    titleFirst lower ql a b ≤ 0 ∨ titleFirst lower ql b a ≤ 0 := by
  unfold titleFirst
  cases includes (lower a.title) ql <;> cases includes (lower b.title) ql <;> decide

theorem titleFirst_trans (lower : Str → Str) (ql : Str) (a b c : Article)
    (h1 : titleFirst lower ql a b ≤ 0) (h2 : titleFirst lower ql b c ≤ 0) :
    titleFirst lower ql a c ≤ 0 := by
  unfold titleFirst at *
  revert h1 h2
  cases includes (lower a.title) ql <;> cases includes (lower b.title) ql <;>
    cases includes (lower c.title) ql <;> decide

theorem titleFirst_le_iff (lower : Str → Str) (ql : Str) (a b : Article) :
    titleFirst lower ql a b ≤ 0 ↔
      ¬ (includes (lower a.title) ql = false ∧ includes (lower b.title) ql = true) := by
  unfold titleFirst
  cases includes (lower a.title) ql <;> cases includes (lower b.title) ql <;> decide

/-- A list in which no element failing `p` comes before one satisfying `p` is
its `p`-elements followed by its other elements. -/
theorem eq_filter_append_filter {α : Type} (p : α → Bool) (l : List α)
    (h : l.Pairwise (fun x y => ¬ (p x = false ∧ p y = true))) :
    l = l.filter p ++ l.filter (fun x => !p x) := by
  induction l with
  | nil => rfl
  | cons x l ih =>
    rw [List.pairwise_cons] at h
    by_cases hx : p x = true
    · rw [List.filter_cons_of_pos hx, List.filter_cons_of_neg (by simp [hx]), List.cons_append,
        ← ih h.2]
    · have hxf : p x = false := by simpa using hx
      have hall : ∀ y ∈ l, p y = false := by
        intro y hy
        have := h.1 y hy
        rw [← Bool.not_eq_true]
        exact fun hy' => this ⟨hxf, hy'⟩
      have h1 : l.filter p = [] := by
        rw [List.filter_eq_nil_iff]
        intro y hy
        simp [hall y hy]
      have h2 : l.filter (fun x => !p x) = l := by
        rw [List.filter_eq_self]
        intro y hy
        simp [hall y hy]
      rw [List.filter_cons_of_neg hx, List.filter_cons_of_pos (by simp [hxf]), h1, h2,
        List.nil_append]

theorem searchArticles_perm (lower : Str → Str) (articles : List Article) (query : Str) :
    (searchArticles lower articles query).Perm
      (articles.filter (articleMatches lower (lower query))) :=
  sort_perm _ _

theorem searchArticles_eq_append (lower : Str → Str) (articles : List Article) (query : Str) :
    searchArticles lower articles query
      = (articles.filter (articleMatches lower (lower query))).filter
          (fun a => includes (lower a.title) (lower query))
        ++ (articles.filter (articleMatches lower (lower query))).filter
          (fun a => !includes (lower a.title) (lower query)) := by
  have hp := sort_pairwise (titleFirst lower (lower query)) (titleFirst_total lower (lower query))
    (titleFirst_trans lower (lower query))
    (articles.filter (articleMatches lower (lower query)))
  have hsplit := eq_filter_append_filter (fun a => includes (lower a.title) (lower query))
    (sort (titleFirst lower (lower query)) (articles.filter (articleMatches lower (lower query))))
    (hp.imp (fun h => (titleFirst_le_iff lower (lower query) _ _).mp h))
  rw [sort_filter, sort_filter] at hsplit
  · exact hsplit
  · intro a b ha hb
    rw [titleFirst_le_iff]
    intro h
    have hb' : (!includes (lower b.title) (lower query)) = true := hb
    rw [h.2] at hb'
    exact absurd hb' (by decide)
  · intro a b ha hb
    rw [titleFirst_le_iff]
    intro h
    have ha' : includes (lower a.title) (lower query) = true := ha
    rw [h.1] at ha'
    exact absurd ha' (by decide)

/-! ## Lemmas on regular expressions -/

theorem parseStep_plain (st : ParserState) (c : Char) (rest : Str)
    (hc : isSyntaxCharacter c = false) :
    parseStep st c rest = .ok (st.push (.char c) true) := by
  unfold isSyntaxCharacter at hc
  simp only [Bool.or_eq_false_iff, decide_eq_false_iff_not] at hc
  obtain ⟨⟨⟨⟨⟨⟨⟨⟨⟨⟨⟨⟨⟨h1, h2⟩, h3⟩, h4⟩, h5⟩, h6⟩, h7⟩, h8⟩, h9⟩, h10⟩, h11⟩, h12⟩, h13⟩, h14⟩ := hc
  unfold parseStep
  simp only [h1, h2, h3, h4, h5, h6, h7, h8, h9, h10, h12, h14, or_self, if_false]

/-- The parser state after reading pattern characters only. -/
theorem parseRun_plain (query tail : Str) (st : ParserState)
    (hq : ∀ c ∈ query, isSyntaxCharacter c = false) (hskip : st.skip = 0) :
    parseRun st (query ++ tail)
      = parseRun { st with current := { st.current with
                      terms := (query.map Pattern.char).reverse ++ st.current.terms
                      quantifiable := if query = [] then st.current.quantifiable else true } }
          tail := by
  induction query generalizing st with
  | nil =>
    simp
  | cons c query ih =>
    have hc := hq c (List.mem_cons_self c query)
    rw [List.cons_append, parseRun, if_pos hskip, parseStep_plain st c _ hc]
    simp only
    rw [ih (st.push (.char c) true) (fun d hd => hq d (List.mem_cons_of_mem c hd)) hskip]
    simp [ParserState.push]

theorem parseStep_open (st : ParserState) (rest : Str) (h : rest.head? ≠ some '?') :
    parseStep st '(' rest
      = .ok { st with current := Frame.new (some (st.groups + 1)),
                      stack := st.current :: st.stack, groups := st.groups + 1 } := by
  unfold parseStep
  rw [if_neg (by decide), if_pos rfl]
  split
  · exact absurd rfl h
  · exact absurd rfl h
  · rfl

/-- The regular expression `highlightMatch` builds from a query without syntax
characters: one capturing group holding the code units of the query. -/
theorem regExp_new_plain (query : Str) (hq : ∀ c ∈ query, isSyntaxCharacter c = false) :
    RegExp.new ("(".toList ++ query ++ ")".toList)
      = .ok { pattern := .group 1 (seqOf (query.map Pattern.char)), groups := 1 } := by
  have hopen : parseStep { current := Frame.new none, stack := [], groups := 0, skip := 0 } '('
      (query ++ ")".toList)
      = .ok { current := Frame.new (some 1), stack := [Frame.new none], groups := 1, skip := 0 } := by
    apply parseStep_open
    cases query with
    | nil => decide
    | cons c query =>
      intro h
      have hc := hq c (List.mem_cons_self c query)
      have hce : c = '?' := by simpa using h
      rw [hce] at hc
      exact absurd hc (by decide)
  unfold RegExp.new
  have hrun : parseRun { current := Frame.new none, stack := [], groups := 0, skip := 0 }
      ("(".toList ++ query ++ ")".toList)
      = .ok { current := { capture := none, alternatives := [],
                           terms := [.group 1 (seqOf (query.map Pattern.char))],
                           quantifiable := true },
              stack := [], groups := 1, skip := 0 } := by
    show parseRun _ ('(' :: (query ++ ")".toList)) = _
    rw [parseRun, if_pos rfl, hopen]
    simp only
    rw [parseRun_plain query ")".toList _ hq rfl]
    show parseRun _ [')'] = _
    rw [parseRun, if_pos rfl]
    simp [parseStep, parseRun, Frame.new, Frame.body, altOf, seqOf]
  rw [hrun]
  rfl

theorem compile_seqOf_cons (canon : Char → Char) (input : Str) (p : Pattern)
    (ps : List Pattern) (x : MatchState) (k : Continuation) :
    compile canon input (seqOf (p :: ps)) x k
      = compile canon input p x (fun y => compile canon input (seqOf ps) y k) := by
  cases ps with
  | nil => rfl
  | cons p' ps => rfl

theorem compile_char (canon : Char → Char) (input : Str) (a : Char) (x : MatchState)
    (k : Continuation) :
    compile canon input (.char a) x k
      = match input.drop x.endIndex with
        | [] => none
        | ch :: _ => if canon ch == canon a then k { x with endIndex := x.endIndex + 1 } else none := by
  show characterSetMatcher input (fun ch => canon ch == canon a) x k = _
  unfold characterSetMatcher
  rw [List.get?_eq_getElem?, ← List.head?_drop]
  cases input.drop x.endIndex <;> rfl

/-- The matcher of a sequence of pattern characters: it succeeds where the
input continues with these code units, case ignored, and moves past them. -/
theorem compile_plain (canon : Char → Char) (input query : Str) (x : MatchState)
    (k : Continuation) :
    compile canon input (seqOf (query.map Pattern.char)) x k
      = if startsWithIgnoringCase canon (input.drop x.endIndex) query then
          k { x with endIndex := x.endIndex + query.length }
        else none := by
  induction query generalizing x with
  | nil =>
    cases hd : input.drop x.endIndex <;> rfl
  | cons a query ih =>
    rw [List.map_cons, compile_seqOf_cons, compile_char]
    cases hd : input.drop x.endIndex with
    | nil => rfl
    | cons ch rest =>
      have hrest : input.drop (x.endIndex + 1) = rest := by
        rw [← List.drop_drop, hd]
        rfl
      simp only [startsWithIgnoringCase]
      by_cases hch : (canon ch == canon a) = true
      · rw [if_pos hch, ih]
        simp only [hrest, hch, Bool.true_and, List.length_cons]
        have : x.endIndex + 1 + query.length = x.endIndex + (query.length + 1) := by omega
        rw [this]
      · rw [if_neg hch]
        have hf : (canon ch == canon a) = false := by simpa using hch
        simp only [hf, Bool.false_and]
        rfl

theorem startsWithIgnoringCase_length (canon : Char → Char) (text query : Str)
    (h : startsWithIgnoringCase canon text query = true) : query.length ≤ text.length := by
  induction text generalizing query with
  | nil =>
    cases query with
    | nil => exact Nat.le_refl _
    | cons d query => exact absurd h (by simp [startsWithIgnoringCase])
  | cons c text ih =>
    cases query with
    | nil => exact Nat.zero_le _
    | cons d query =>
      rw [startsWithIgnoringCase, Bool.and_eq_true] at h
      exact Nat.succ_le_succ (ih query h.2)

/-- The regular expression of a query without syntax characters, run at index
`i`: it matches exactly where the query stands, case ignored, and its first
capture is the text matched. -/
theorem matchAt_plain (canon : Char → Char) (input query : Str) (i : Nat) :
    RegExp.matchAt canon { pattern := .group 1 (seqOf (query.map Pattern.char)), groups := 1 }
        input i
      = if startsWithIgnoringCase canon (input.drop i) query then
          some { endIndex := i + query.length, captures := [some (i, i + query.length)] }
        else none := by
  unfold RegExp.matchAt
  show compile canon input (seqOf (query.map Pattern.char)) _ _ = _
  rw [compile_plain]
  rfl

theorem wrapOccurrences_nil (canon : Char → Char) (opening closing query : Str) (fuel : Nat) :
    wrapOccurrences canon opening closing query fuel [] = [] := by
  cases fuel <;> rfl

theorem take_succ_drop (input : Str) (next i : Nat) (hn : next ≤ i) (hi : i < input.length) :
    (input.drop next).take (i + 1 - next)
      = (input.drop next).take (i - next) ++ [input.get ⟨i, hi⟩] := by
  have h1 : i + 1 - next = (i - next) + 1 := by omega
  rw [h1, List.take_succ, List.getElem?_drop]
  have h2 : next + (i - next) = i := by omega
  rw [h2, List.getElem?_eq_getElem hi]
  rfl

/-- The loop of `replace` for the regular expression of a non-empty query
without syntax characters, from index `i` on: what is left to add is the text
skipped since the last match and the rest of the text with its occurrences
wrapped. -/
theorem replaceLoop_plain (canon : Char → Char) (input opening closing query : Str)
    (hq : query ≠ []) (n : Nat) :
    ∀ (i next : Nat) (acc : Str) (fuelR fuelW : Nat),
      i ≤ input.length → input.length - i ≤ n → next ≤ i →
      input.length - i + 2 ≤ fuelR → input.length - i ≤ fuelW →
      replaceLoop canon { pattern := .group 1 (seqOf (query.map Pattern.char)), groups := 1 }
          input opening closing fuelR i next acc
        = acc ++ (input.drop next).take (i - next)
            ++ wrapOccurrences canon opening closing query fuelW (input.drop i) := by
  have hqlen : 0 < query.length := List.length_pos.mpr hq
  induction n with
  | zero =>
    intro i next acc fuelR fuelW hi hn hnext hR hW
    have hEq : i = input.length := by omega
    subst hEq
    obtain ⟨f, rfl⟩ : ∃ f, fuelR = f + 2 := ⟨fuelR - 2, by omega⟩
    have hdrop : input.drop input.length = [] := List.drop_eq_nil_of_le (Nat.le_refl _)
    have hno : startsWithIgnoringCase canon [] query = false := by
      cases query with
      | nil => exact absurd rfl hq
      | cons d query => rfl
    rw [replaceLoop, if_neg (Nat.lt_irrefl _), matchAt_plain, hdrop, hno]
    simp only [Bool.false_eq_true, if_false]
    rw [replaceLoop, if_pos (Nat.lt_succ_self _), wrapOccurrences_nil, List.append_nil,
      List.take_of_length_le (by rw [List.length_drop])]
  | succ n ih =>
    intro i next acc fuelR fuelW hi hn hnext hR hW
    by_cases hle : input.length - i ≤ n
    · exact ih i next acc fuelR fuelW hi hle hnext hR hW
    · have hlt : i < input.length := by omega
      obtain ⟨f, rfl⟩ : ∃ f, fuelR = f + 1 := ⟨fuelR - 1, by omega⟩
      obtain ⟨w, rfl⟩ : ∃ w, fuelW = w + 1 := ⟨fuelW - 1, by omega⟩
      have hcons : input.drop i = input.get ⟨i, hlt⟩ :: input.drop (i + 1) :=
        List.drop_eq_getElem_cons hlt
      rw [replaceLoop, if_neg (by omega), matchAt_plain]
      by_cases hm : startsWithIgnoringCase canon (input.drop i) query = true
      · have hfit : query.length ≤ input.length - i := by
          have := startsWithIgnoringCase_length canon _ _ hm
          rwa [List.length_drop] at this
        rw [if_pos hm]
        simp only
        rw [if_pos (show i ≥ next from hnext), if_pos (show i ≥ next from hnext),
          if_neg (by omega)]
        rw [ih (i + query.length) (i + query.length) _ f w (by omega) (by omega) (Nat.le_refl _)
          (by omega) (by omega)]
        have hcap : captureText input
            { endIndex := i + query.length, captures := [some (i, i + query.length)] } 1
            = (input.drop i).take query.length := by
          unfold captureText
          simp
        rw [hcap, Nat.sub_self, List.take_zero, List.append_nil]
        have hw : wrapOccurrences canon opening closing query (w + 1) (input.drop i)
            = opening ++ (input.drop i).take query.length ++ closing
              ++ wrapOccurrences canon opening closing query w (input.drop (i + query.length)) := by
          rw [← List.drop_drop, hcons, wrapOccurrences, if_pos (by rw [← hcons]; exact hm)]
        rw [hw]
        simp only [List.append_assoc]
      · rw [if_neg hm]
        simp only
        rw [ih (i + 1) next acc f w (by omega) (by omega) (by omega) (by omega) (by omega)]
        have hw : wrapOccurrences canon opening closing query (w + 1) (input.drop i)
            = input.get ⟨i, hlt⟩
              :: wrapOccurrences canon opening closing query w (input.drop (i + 1)) := by
          rw [hcons, wrapOccurrences, if_neg (by rw [← hcons]; exact hm)]
        rw [hw, take_succ_drop input next i hnext hlt]
        simp only [List.append_assoc, List.singleton_append]

/-- For a non-empty query without syntax characters the shared body of the
`highlightMatch` methods does not fail and returns the text with the
occurrences of the query, case ignored, wrapped. -/
theorem highlightWith_plain (canon : Char → Char) (opening closing text query : Str)
    (hq : query ≠ []) (hs : ∀ c ∈ query, isSyntaxCharacter c = false) :
    highlightWith canon opening closing text query
      = .ok (wrapOccurrences canon opening closing query text.length text) := by
  unfold highlightWith
  rw [regExp_new_plain query hs]
  simp only
  unfold replaceAll
  rw [replaceLoop_plain canon text opening closing query hq text.length 0 0 [] (text.length + 2)
    text.length (Nat.zero_le _) (by omega) (Nat.le_refl _) (by omega) (by omega)]
  simp

/-! ## Lemmas on keyboard navigation -/

theorem markActive_nil (a : Option Nat) : markActive a [] = [] := by
  cases a with
  | none => rfl
  | some i => cases i <;> rfl

theorem length_markActive (a : Option Nat) (items : List Suggestion) :
    (markActive a items).length = items.length := by
  induction items generalizing a with
  | nil => rw [markActive_nil]
  | cons s rest ih =>
    cases a with
    | none => simp [markActive, ih]
    | some i => cases i <;> simp [markActive, ih]

theorem markActive_of_inactive (items : List Suggestion)
    (h : ∀ s ∈ items, s.active = false) : markActive none items = items := by
  induction items with
  | nil => rfl
  | cons s rest ih =>
    have hs := h s (List.mem_cons_self s rest)
    rw [markActive, ih (fun t ht => h t (List.mem_cons_of_mem s ht))]
    cases s
    simp only at hs
    subst hs
    rfl

theorem markActive_of_length_le (i : Nat) (items : List Suggestion) (h : items.length ≤ i) :
    markActive (some i) items = markActive none items := by
  induction items generalizing i with
  | nil => rw [markActive_nil, markActive_nil]
  | cons s rest ih =>
    cases i with
    | zero => exact absurd h (by simp)
    | succ i =>
      rw [markActive, markActive, ih i (by simpa using h)]

theorem activeIndex_markActive_none (items : List Suggestion) :
    activeIndex (markActive none items) = none := by
  induction items with
  | nil => rfl
  | cons s rest ih => simp [markActive, activeIndex, ih]

theorem activeIndex_markActive_some (i : Nat) (items : List Suggestion) (h : i < items.length) :
    activeIndex (markActive (some i) items) = some i := by
  induction items generalizing i with
  | nil => exact absurd h (by simp)
  | cons s rest ih =>
    cases i with
    | zero => simp [markActive, activeIndex]
    | succ i => simp [markActive, activeIndex, ih i (by simpa using h)]

theorem setActive_true_markActive (i : Nat) (items : List Suggestion) :
    setActive true i (markActive none items) = markActive (some i) items := by
  induction items generalizing i with
  | nil => cases i <;> rfl
  | cons s rest ih =>
    cases i with
    | zero => rfl
    | succ i => simp [markActive, setActive, ih]

theorem setActive_false_markActive (i : Nat) (items : List Suggestion) :
    setActive false i (markActive (some i) items) = markActive none items := by
  induction items generalizing i with
  | nil => cases i <;> rfl
  | cons s rest ih =>
    cases i with
    | zero => rfl
    | succ i => simp [markActive, setActive, ih]

theorem get?_markActive (a : Option Nat) (items : List Suggestion) (j : Nat) :
    (markActive a items).get? j
      = (items.get? j).map (fun s => { s with active := decide (a = some j) }) := by
  induction items generalizing a j with
  | nil => rw [markActive_nil]; rfl
  | cons s rest ih =>
    cases j with
    | zero =>
      cases a with
      | none => rfl
      | some i => cases i <;> simp [markActive]
    | succ j =>
      cases a with
      | none =>
        have := ih none j
        simpa [markActive] using this
      | some i =>
        cases i with
        | zero =>
          have := ih none j
          simpa [markActive] using this
        | succ i =>
          have := ih (some i) j
          simpa [markActive] using this

theorem count_active_markActive (a : Option Nat) (items : List Suggestion) :
    ((markActive a items).filter (fun s => s.active)).length ≤ 1 := by
  have hnone : ∀ l : List Suggestion, (markActive none l).filter (fun s => s.active) = [] := by
    intro l
    induction l with
    | nil => rfl
    | cons s rest ih => simp [markActive, ih]
  induction items generalizing a with
  | nil => simp [markActive_nil]
  | cons s rest ih =>
    cases a with
    | none => simp [hnone]
    | some i =>
      cases i with
      | zero => simp [markActive, hnone]
      | succ i =>
        have := ih (some i)
        simpa [markActive] using this

theorem withChildren_eq (self : HealthlineSearch) (c : Container)
    (hc : self.suggestionsContainer = some c) (children : List Suggestion) :
    withChildren self children
      = { self with suggestionsContainer := some { c with children := children } } := by
  unfold withChildren
  rw [hc]

theorem withChildren_self (self : HealthlineSearch) (c : Container)
    (hc : self.suggestionsContainer = some c) : withChildren self c.children = self := by
  rw [withChildren_eq self c hc]
  obtain ⟨value, container, minChars, maxResults, categories, searchIndex, href⟩ := self
  simp only at hc
  subst hc
  rfl

theorem suggestionsOf_eq (self : HealthlineSearch) (c : Container)
    (hc : self.suggestionsContainer = some c) : suggestionsOf self = c.children := by
  unfold suggestionsOf
  rw [hc]

theorem suggestionsOf_withChildren (self : HealthlineSearch) (c : Container)
    (hc : self.suggestionsContainer = some c) (children : List Suggestion) :
    suggestionsOf (withChildren self children) = children := by
  rw [withChildren_eq self c hc]
  rfl

/-- ArrowDown over the list `items` in the navigation state `a`. -/
theorem handleKeydown_arrowDown_state (encode : Str → Str) (self : HealthlineSearch)
    (c : Container) (items : List Suggestion) (a : Option Nat)
    (hc : self.suggestionsContainer = some c) (hch : c.children = markActive a items)
    (ha : ∀ i, a = some i → i < items.length) :
    handleKeydown encode self .arrowDown
      = withChildren self (markActive (afterArrowDown items.length a) items) := by
  have hself := withChildren_self self c hc
  simp only [handleKeydown, hc, hch]
  cases a with
  | none =>
    rw [activeIndex_markActive_none]
    simp only [afterArrowDown, length_markActive]
    by_cases hn : items.length ≠ 0
    · rw [if_pos hn, if_pos hn, setActive_true_markActive]
    · rw [if_neg hn, if_neg hn, ← hch, hself]
  | some i =>
    rw [activeIndex_markActive_some i items (ha i rfl)]
    simp only [afterArrowDown, length_markActive]
    by_cases hi : i + 1 < items.length
    · rw [if_pos hi, if_pos hi, setActive_false_markActive, setActive_true_markActive]
    · rw [if_neg hi, if_neg hi, ← hch, hself]

/-- ArrowUp over the list `items` in the navigation state `a`. -/
theorem handleKeydown_arrowUp_state (encode : Str → Str) (self : HealthlineSearch)
    (c : Container) (items : List Suggestion) (a : Option Nat)
    (hc : self.suggestionsContainer = some c) (hch : c.children = markActive a items)
    (ha : ∀ i, a = some i → i < items.length) :
    handleKeydown encode self .arrowUp
      = withChildren self (markActive (afterArrowUp a) items) := by
  have hself := withChildren_self self c hc
  simp only [handleKeydown, hc, hch]
  cases a with
  | none =>
    rw [activeIndex_markActive_none]
    simp only [afterArrowUp]
    rw [← hch, hself]
  | some i =>
    rw [activeIndex_markActive_some i items (ha i rfl)]
    cases i with
    | zero =>
      simp only [afterArrowUp, Nat.lt_irrefl, if_false]
      rw [← hch, hself]
    | succ i =>
      simp only [afterArrowUp, Nat.zero_lt_succ, if_true, Nat.add_sub_cancel]
      rw [setActive_false_markActive, setActive_true_markActive]

theorem suggestionsOf_nil_of_absent (self : HealthlineSearch)
    (hc : self.suggestionsContainer = none) : suggestionsOf self = [] := by
  unfold suggestionsOf
  rw [hc]

theorem withChildren_absent (self : HealthlineSearch)
    (hc : self.suggestionsContainer = none) (children : List Suggestion) :
    withChildren self children = self := by
  unfold withChildren
  rw [hc]

/-- ArrowDown over the suggestions `items` in the navigation state `a`, the
container present or not. -/
theorem handleKeydown_arrowDown (encode : Str → Str) (self : HealthlineSearch)
    (items : List Suggestion) (a : Option Nat)
    (hs : suggestionsOf self = markActive a items)
    (ha : ∀ i, a = some i → i < items.length) :
    handleKeydown encode self .arrowDown
      = withChildren self (markActive (afterArrowDown items.length a) items) := by
  cases hc : self.suggestionsContainer with
  | some c =>
    exact handleKeydown_arrowDown_state encode self c items a hc
      ((suggestionsOf_eq self c hc).symm.trans hs) ha
  | none =>
    rw [withChildren_absent self hc]
    simp only [handleKeydown, hc, activeIndex]
    rfl

/-- ArrowUp over the suggestions `items` in the navigation state `a`, the
container present or not. -/
theorem handleKeydown_arrowUp (encode : Str → Str) (self : HealthlineSearch)
    (items : List Suggestion) (a : Option Nat)
    (hs : suggestionsOf self = markActive a items)
    (ha : ∀ i, a = some i → i < items.length) :
    handleKeydown encode self .arrowUp
      = withChildren self (markActive (afterArrowUp a) items) := by
  cases hc : self.suggestionsContainer with
  | some c =>
    exact handleKeydown_arrowUp_state encode self c items a hc
      ((suggestionsOf_eq self c hc).symm.trans hs) ha
  | none =>
    rw [withChildren_absent self hc]
    simp only [handleKeydown, hc, activeIndex]

/-- The suggestions after the children have been replaced by `items` in
another navigation state. -/
theorem suggestionsOf_withChildren_markActive (self : HealthlineSearch)
    (items : List Suggestion) (a b : Option Nat)
    (hs : suggestionsOf self = markActive a items) :
    suggestionsOf (withChildren self (markActive b items)) = markActive b items := by
  cases hc : self.suggestionsContainer with
  | some c => exact suggestionsOf_withChildren self c hc _
  | none =>
    rw [withChildren_absent self hc]
    have hnil : items = [] := by
      have h := congrArg List.length hs
      rw [suggestionsOf_nil_of_absent self hc, length_markActive] at h
      exact List.length_eq_zero.mp h.symm
    rw [suggestionsOf_nil_of_absent self hc, hnil, markActive_nil]

theorem withChildren_same (self : HealthlineSearch) : withChildren self (suggestionsOf self) = self := by
  cases hc : self.suggestionsContainer with
  | some c =>
    rw [suggestionsOf_eq self c hc]
    exact withChildren_self self c hc
  | none => exact withChildren_absent self hc _

theorem suggestionsOf_hideSuggestions (self : HealthlineSearch) :
    suggestionsOf (hideSuggestions self) = suggestionsOf self := by
  obtain ⟨value, container, minChars, maxResults, categories, searchIndex, href⟩ := self
  cases container <;> rfl

theorem suggestionsOf_performSearch (encode : Str → Str) (self : HealthlineSearch) :
    suggestionsOf (performSearch encode self) = suggestionsOf self := by
  unfold performSearch
  simp only
  split <;> rfl

theorem suggestionsOf_enter (encode : Str → Str) (self : HealthlineSearch) :
    suggestionsOf (handleKeydown encode self .enter) = suggestionsOf self := by
  unfold handleKeydown
  simp only
  split
  · split
    · rfl
    · rfl
  · exact suggestionsOf_performSearch encode self

/-! ## Claims on `HealthlineSearch.search` -/

/-- C1: for every index entry `e` and query `q`, with `ql` the lowercased `q`
and `T` the pieces of `ql` split on runs of white space, the score computed by
`search` is 130 if the title contains `ql`, plus 50 if the title starts with
`ql`, plus 20 if the category contains `ql`, plus 15 for each tag containing
`ql`, plus 10 if the excerpt contains `ql`, plus 5 if the author contains `ql`,
plus, for each piece `t` of `T`, 5 if the title contains `t` and 2 if the
excerpt contains `t`; it is non-negative, and it is the score carried by every
element of the list `search` returns. -/
theorem search_score_exact (lower : Str → Str) (searchIndex : List IndexEntry)
    (maxResults : Int) (query : Str) :
    (∀ e : IndexEntry,
        scoreOf e (lower query) (splitWhitespace (lower query))
          = claimedScore e (lower query) (splitWhitespace (lower query)) ∧
        0 ≤ scoreOf e (lower query) (splitWhitespace (lower query))) ∧
    (scored searchIndex (lower query) (splitWhitespace (lower query))
        = searchIndex.map (fun e =>
            { e with score := claimedScore e (lower query) (splitWhitespace (lower query)) })) ∧
    (∀ r ∈ search lower searchIndex maxResults query,
        r.toIndexEntry ∈ searchIndex ∧
        r.score = claimedScore r.toIndexEntry (lower query) (splitWhitespace (lower query))) := by
  refine ⟨fun e => ⟨scoreOf_eq_claimedScore _ _ _, ?_⟩, ?_, ?_⟩
  · rw [scoreOf_eq_claimedScore]
    exact claimedScore_nonneg _ _ _
  · unfold scored
    apply List.map_congr_left
    intro e _
    rw [scoreOf_eq_claimedScore]
  · intro r hr
    have h := mem_scored _ _ _ r (mem_search _ _ _ _ r hr).1
    exact ⟨h.1, h.2.trans (scoreOf_eq_claimedScore _ _ _)⟩

/-- C2: the list `search` returns is ordered by non-increasing score, and for
every score `s` the returned entries of score `s` are, in the same order, the
first entries of score `s` of the indexed collection: entries with equal
scores keep the relative order of the index. -/
theorem search_sorted_stable (lower : Str → Str) (searchIndex : List IndexEntry)
    (maxResults : Int) (query : Str) :
    (search lower searchIndex maxResults query).Pairwise (fun a b => b.score ≤ a.score) ∧
    ∀ s : Int,
      (search lower searchIndex maxResults query).filter (fun r => r.score == s)
        <+: (scored searchIndex (lower query) (splitWhitespace (lower query))).filter
              (fun r => r.score == s) := by
  refine ⟨search_pairwise _ _ _ _, fun s => ?_⟩
  obtain ⟨k, hk⟩ := search_eq_take lower searchIndex maxResults query
  rw [hk]
  refine ((List.take_prefix k _).filter _).trans ?_
  rw [sort_filter]
  · rw [List.filter_filter]
    by_cases hs : 0 < s
    · have hcongr : (scored searchIndex (lower query) (splitWhitespace (lower query))).filter
          (fun r => (r.score == s) && decide (r.score > 0))
          = (scored searchIndex (lower query) (splitWhitespace (lower query))).filter
              (fun r => r.score == s) := by
        apply List.filter_congr
        intro r _
        by_cases hr : r.score = s
        · simp [hr, hs]
        · simp [hr]
      rw [hcongr]
    · have hnil : (scored searchIndex (lower query) (splitWhitespace (lower query))).filter
          (fun r => (r.score == s) && decide (r.score > 0)) = [] := by
        rw [List.filter_eq_nil_iff]
        intro r _
        by_cases hr : r.score = s
        · simp [hr, hs]
        · simp [hr]
      rw [hnil]
      exact List.nil_prefix
  · intro a b ha hb
    have ha' : a.score = s := by simpa using ha
    have hb' : b.score = s := by simpa using hb
    show b.score - a.score ≤ 0
    omega

/-- C3 fails as stated: with the option `maxResults` given as `0` the
constructor falls back to 10, and a search over one matching entry returns one
result, more than the configured maximum `0`. -/
theorem search_exceeds_maxResults_zero :
    ¬ (((search asciiLower (buildIndex asciiLower [articleA]) (maxResultsOf (some 0))
          "diabetes".toList).length : Int) ≤ 0) := by
  decide

/-- C3, amended: for every positive integer given as the option `maxResults`
the number of entries `search` returns is at most that integer, and when the
option is absent, or is `0` (which the constructor treats as absent), it is at
most 10. -/
theorem search_length_le_maxResults (lower : Str → Str) (searchIndex : List IndexEntry)
    (query : Str) (m : Int) (hm : 0 < m) :
    ((search lower searchIndex (maxResultsOf (some m)) query).length : Int) ≤ m ∧
    ((search lower searchIndex (maxResultsOf none) query).length : Int) ≤ 10 ∧
    ((search lower searchIndex (maxResultsOf (some 0)) query).length : Int) ≤ 10 := by
  have hne : m ≠ 0 := ne_of_gt hm
  refine ⟨?_, ?_, ?_⟩
  · simp only [maxResultsOf, if_neg hne]
    exact slice0_length_le _ _ (le_of_lt hm)
  · exact slice0_length_le _ _ (by decide)
  · exact slice0_length_le _ _ (by decide)

/-- The bound of `search_length_le_maxResults` at the maximum 1, over an index
in which two entries match the query. -/
theorem search_length_le_maxResults_witness :
    (0 : Int) < 1 ∧
    ((search asciiLower (buildIndex asciiLower [articleA, articleB]) (maxResultsOf (some 1))
        "diabetes".toList).length : Int) ≤ 1 ∧
    (((scored (buildIndex asciiLower [articleA, articleB]) (asciiLower "diabetes".toList)
        (splitWhitespace (asciiLower "diabetes".toList))).filter
          (fun r => r.score > 0)).length = 2) :=
  ⟨by decide,
   (search_length_le_maxResults asciiLower (buildIndex asciiLower [articleA, articleB])
      "diabetes".toList 1 (by decide)).1,
   by decide⟩

/-- C4: every entry `search` returns has a score strictly greater than 0, and
when the number of indexed entries with positive score is at most `maxResults`
the returned list is a rearrangement of exactly the indexed entries with
positive score, each appearing as often as in the index. -/
theorem search_positive_complete (lower : Str → Str) (searchIndex : List IndexEntry)
    (maxResults : Int) (query : Str) :
    (∀ r ∈ search lower searchIndex maxResults query, 0 < r.score) ∧
    ((((scored searchIndex (lower query) (splitWhitespace (lower query))).filter
          (fun r => r.score > 0)).length : Int) ≤ maxResults →
      (search lower searchIndex maxResults query).Perm
        ((scored searchIndex (lower query) (splitWhitespace (lower query))).filter
          (fun r => r.score > 0))) := by
  refine ⟨fun r hr => (mem_search _ _ _ _ r hr).2, fun hlen => ?_⟩
  unfold search
  simp only
  rw [slice0_of_length_le]
  · exact sort_perm _ _
  · rw [(sort_perm _ _).length_eq]
    exact hlen

/-- C5 fails as stated: the query "diet plan" is trimmed, has at least two
code units and is a substring of no field of the only indexed entry, yet its
piece "diet" occurs in the title "diet tips", so the entry scores 5 and is
returned. -/
theorem search_nonempty_on_token_match :
    trim "diet plan".toList = "diet plan".toList ∧
    minCharsOf none ≤ ("diet plan".toList.length : Int) ∧
    (∀ e ∈ buildIndex asciiLower [articleB],
      ¬ asciiLower "diet plan".toList <:+: e.title ∧
      ¬ asciiLower "diet plan".toList <:+: e.excerpt ∧
      ¬ asciiLower "diet plan".toList <:+: e.category ∧
      ¬ asciiLower "diet plan".toList <:+: e.author ∧
      ∀ tag ∈ e.tags, ¬ asciiLower "diet plan".toList <:+: tag) ∧
    (search asciiLower (buildIndex asciiLower [articleB]) (maxResultsOf none)
        "diet plan".toList).map (fun r => (r.slug, r.score)) = [("B".toList, 5)] := by
  decide

/-- C5, amended: for every indexed collection and every query whose lowercased
form is a substring of no title, excerpt, category, author or tag of an
indexed entry, and none of whose pieces (the lowercased query split on runs of
white space) is a substring of the title or excerpt of an indexed entry,
`search` returns the empty list. -/
theorem search_empty_of_no_match (lower : Str → Str) (searchIndex : List IndexEntry)
    (maxResults : Int) (query : Str)
    (hq : ∀ e ∈ searchIndex,
      ¬ lower query <:+: e.title ∧ ¬ lower query <:+: e.excerpt ∧
      ¬ lower query <:+: e.category ∧ ¬ lower query <:+: e.author ∧
      ∀ tag ∈ e.tags, ¬ lower query <:+: tag)
    (ht : ∀ e ∈ searchIndex, ∀ t ∈ splitWhitespace (lower query),
      ¬ t <:+: e.title ∧ ¬ t <:+: e.excerpt) :
    search lower searchIndex maxResults query = [] := by
  have hzero : ∀ e ∈ searchIndex,
      scoreOf e (lower query) (splitWhitespace (lower query)) = 0 := by
    intro e he
    obtain ⟨h1, h2, h3, h4, h5⟩ := hq e he
    have hp : ¬ lower query <+: e.title := fun h => h1 h.isInfix
    have htags : e.tags.filter (fun tag => decide (lower query <:+: tag)) = [] := by
      rw [List.filter_eq_nil_iff]
      intro tag htag
      simpa using h5 tag htag
    have hsum : ((splitWhitespace (lower query)).map (fun t =>
        (if t <:+: e.title then (5 : Int) else 0) + (if t <:+: e.excerpt then 2 else 0))).sum
        = 0 := by
      apply List.sum_eq_zero
      intro x hx
      rw [List.mem_map] at hx
      obtain ⟨t, htmem, rfl⟩ := hx
      rw [if_neg (ht e he t htmem).1, if_neg (ht e he t htmem).2]
      rfl
    rw [scoreOf_eq_claimedScore]
    unfold claimedScore
    rw [if_neg h1, if_neg hp, if_neg h2, if_neg h3, if_neg h4, htags, hsum]
    rfl
  have hfilter : (scored searchIndex (lower query) (splitWhitespace (lower query))).filter
      (fun article => article.score > 0) = [] := by
    rw [List.filter_eq_nil_iff]
    intro r hr
    have h := mem_scored _ _ _ r hr
    have h0 : r.score = 0 := h.2.trans (hzero _ h.1)
    simp [h0]
  obtain ⟨k, hk⟩ := search_eq_take lower searchIndex maxResults query
  rw [hk, hfilter]
  simp [sort]

/-- The statement of `search_empty_of_no_match` at the query "heart rate" over
the index of the entries `A` and `B`. -/
theorem search_empty_of_no_match_witness :
    buildIndex asciiLower [articleA, articleB] ≠ [] ∧
    search asciiLower (buildIndex asciiLower [articleA, articleB]) (maxResultsOf none)
      "heart rate".toList = [] :=
  ⟨by decide,
   search_empty_of_no_match asciiLower (buildIndex asciiLower [articleA, articleB])
     (maxResultsOf none) "heart rate".toList (by decide) (by decide)⟩

/-- C6 fails as stated: for the query "diabetes" the entry titled "Managing
Diabetes" scores 135, while an entry that matches only through its ten tags
scores 150 and is returned first. -/
theorem tags_outscore_title :
    asciiLower "diabetes".toList <:+: (indexEntry asciiLower articleA).title ∧
    (¬ asciiLower "diabetes".toList <:+: (indexEntry asciiLower articleManyTags).title ∧
     ¬ asciiLower "diabetes".toList <:+: (indexEntry asciiLower articleManyTags).excerpt ∧
     ¬ asciiLower "diabetes".toList <:+: (indexEntry asciiLower articleManyTags).category ∧
     ¬ asciiLower "diabetes".toList <:+: (indexEntry asciiLower articleManyTags).author ∧
     ∃ tag ∈ (indexEntry asciiLower articleManyTags).tags,
       asciiLower "diabetes".toList <:+: tag) ∧
    (search asciiLower (buildIndex asciiLower [articleA, articleManyTags]) (maxResultsOf none)
        "diabetes".toList).map (fun r => (r.slug, r.score))
      = [("B10".toList, 150), ("A".toList, 135)] := by
  decide

/-- C6, amended: an indexed entry `a` whose title contains the lowercased query
scores strictly higher than an indexed entry `b` that matches it in none of
title, excerpt, category and author, and precedes it in the returned list
whenever both are returned, provided 15 times the number of tags of `b` that
contain the query plus 2 times the number of pieces of the query is less than
130. -/
theorem title_match_dominates (lower : Str → Str) (searchIndex : List IndexEntry)
    (maxResults : Int) (query : Str) (a b : IndexEntry)
    (ha : lower query <:+: a.title)
    (hb : ¬ lower query <:+: b.title ∧ ¬ lower query <:+: b.excerpt ∧
      ¬ lower query <:+: b.category ∧ ¬ lower query <:+: b.author)
    (hk : 15 * ((b.tags.filter (fun tag => decide (lower query <:+: tag))).length : Int)
        + 2 * ((splitWhitespace (lower query)).length : Int) < 130) :
    scoreOf b (lower query) (splitWhitespace (lower query))
      < scoreOf a (lower query) (splitWhitespace (lower query)) ∧
    ∀ (i j : Nat) (hi : i < (search lower searchIndex maxResults query).length)
      (hj : j < (search lower searchIndex maxResults query).length),
      ((search lower searchIndex maxResults query).get ⟨i, hi⟩).toIndexEntry = a →
      ((search lower searchIndex maxResults query).get ⟨j, hj⟩).toIndexEntry = b →
      i < j := by
  have hscore : scoreOf b (lower query) (splitWhitespace (lower query))
      < scoreOf a (lower query) (splitWhitespace (lower query)) := by
    rw [scoreOf_eq_claimedScore, scoreOf_eq_claimedScore]
    have h1 := claimedScore_title_ge a (lower query) ha
    have h2 := claimedScore_tags_only_le b (lower query) (splitWhitespace (lower query)) hb
    linarith
  refine ⟨hscore, ?_⟩
  intro i j hi hj hia hjb
  have hsa := (mem_scored _ _ _ _ (mem_search _ _ _ _ _ (List.get_mem _ i hi)).1).2
  have hsb := (mem_scored _ _ _ _ (mem_search _ _ _ _ _ (List.get_mem _ j hj)).1).2
  rw [hia] at hsa
  rw [hjb] at hsb
  by_contra hij
  rcases Nat.lt_or_ge j i with hlt | hge
  · have hp := List.pairwise_iff_get.mp (search_pairwise lower searchIndex maxResults query)
      ⟨j, hj⟩ ⟨i, hi⟩ hlt
    rw [hsa, hsb] at hp
    exact absurd hscore (not_lt.mpr hp)
  · have hEq : i = j := by omega
    subst hEq
    rw [hsa] at hsb
    exact absurd hsb (ne_of_gt hscore)

/-- The example of the specification: for the query "diabetes" the entry `A`
scores 135, the entry `B` scores 15, and `A` is returned first although `B`
comes first in the collection. -/
theorem title_match_dominates_witness :
    scoreOf (indexEntry asciiLower articleB) (asciiLower "diabetes".toList)
        (splitWhitespace (asciiLower "diabetes".toList))
      < scoreOf (indexEntry asciiLower articleA) (asciiLower "diabetes".toList)
        (splitWhitespace (asciiLower "diabetes".toList)) ∧
    (search asciiLower (buildIndex asciiLower [articleB, articleA]) (maxResultsOf none)
        "diabetes".toList).map (fun r => (r.slug, r.score))
      = [("A".toList, 135), ("B".toList, 15)] :=
  ⟨(title_match_dominates asciiLower (buildIndex asciiLower [articleB, articleA])
      (maxResultsOf none) "diabetes".toList (indexEntry asciiLower articleA)
      (indexEntry asciiLower articleB) (by decide) (by decide) (by decide)).1,
   by decide⟩

/-! ## Claims on `SearchResultsPage.searchArticles` -/

/-- C9: an article is in the list `searchArticles` returns if and only if it is
in the collection and the lowercased query is a substring of its lowercased
title, excerpt or category or of one of its lowercased tags; each such article
appears in the result exactly as often as in the collection (once, when the
collection holds it once), and the length of the result is the number of all
such articles, without a cap. -/
theorem searchArticles_complete (lower : Str → Str) (articles : List Article) (query : Str) :
    (∀ a : Article, a ∈ searchArticles lower articles query ↔
        a ∈ articles ∧ matchesQuery lower (lower query) a) ∧
    (∀ a : Article, (searchArticles lower articles query).count a
        = if matchesQuery lower (lower query) a then articles.count a else 0) ∧
    (searchArticles lower articles query).length
        = (articles.filter (fun a => decide (matchesQuery lower (lower query) a))).length := by
  have hperm := searchArticles_perm lower articles query
  have hcongr : articles.filter (articleMatches lower (lower query))
      = articles.filter (fun a => decide (matchesQuery lower (lower query) a)) := by
    apply List.filter_congr
    intro a _
    rw [Bool.eq_iff_iff, articleMatches_iff, decide_eq_true_iff]
    rfl
  refine ⟨fun a => ?_, fun a => ?_, ?_⟩
  · rw [hperm.mem_iff, List.mem_filter, articleMatches_iff]
    rfl
  · rw [hperm.count_eq, hcongr]
    by_cases hm : matchesQuery lower (lower query) a
    · rw [if_pos hm, List.count_filter (by simpa using hm)]
    · rw [if_neg hm]
      apply List.count_eq_zero_of_not_mem
      rw [List.mem_filter]
      exact fun h => hm (by simpa using h.2)
  · rw [hperm.length_eq, hcongr]

/-- C10: the list `searchArticles` returns is the articles whose lowercased
title contains the lowercased query, in source order, followed by the other
matching articles, in source order; an article matched through its excerpt is
returned, and every returned article whose title contains the query stands
before every returned article whose title does not. -/
theorem searchArticles_two_buckets (lower : Str → Str) (articles : List Article)
    (query : Str) :
    searchArticles lower articles query
      = articles.filter (fun a => decide
          (matchesQuery lower (lower query) a ∧ lower query <:+: lower a.title))
        ++ articles.filter (fun a => decide
          (matchesQuery lower (lower query) a ∧ ¬ lower query <:+: lower a.title)) ∧
    (∀ a ∈ articles, lower query <:+: lower a.excerpt →
        a ∈ searchArticles lower articles query) ∧
    (∀ (i j : Nat) (hi : i < (searchArticles lower articles query).length)
        (hj : j < (searchArticles lower articles query).length),
        lower query <:+: lower ((searchArticles lower articles query).get ⟨i, hi⟩).title →
        ¬ lower query <:+: lower ((searchArticles lower articles query).get ⟨j, hj⟩).title →
        i < j) := by
  refine ⟨?_, ?_, ?_⟩
  · rw [searchArticles_eq_append, List.filter_filter, List.filter_filter]
    congr 1
    · apply List.filter_congr
      intro a _
      rw [Bool.eq_iff_iff, Bool.and_eq_true, includes_iff, articleMatches_iff,
        decide_eq_true_iff]
      exact ⟨fun h => ⟨h.2, h.1⟩, fun h => ⟨h.2, h.1⟩⟩
    · apply List.filter_congr
      intro a _
      rw [Bool.eq_iff_iff, Bool.and_eq_true, Bool.not_eq_true', ← Bool.not_eq_true,
        includes_iff, articleMatches_iff, decide_eq_true_iff]
      exact ⟨fun h => ⟨h.2, h.1⟩, fun h => ⟨h.2, h.1⟩⟩
  · intro a ha hex
    rw [(searchArticles_perm lower articles query).mem_iff, List.mem_filter, articleMatches_iff]
    exact ⟨ha, Or.inr (Or.inl hex)⟩
  · intro i j hi hj hti htj
    have hp := sort_pairwise (titleFirst lower (lower query))
      (titleFirst_total lower (lower query)) (titleFirst_trans lower (lower query))
      (articles.filter (articleMatches lower (lower query)))
    by_contra hij
    rcases Nat.lt_or_ge j i with hlt | hge
    · have h := List.pairwise_iff_get.mp hp ⟨j, hj⟩ ⟨i, hi⟩ hlt
      rw [titleFirst_le_iff] at h
      apply h
      constructor
      · rw [← Bool.not_eq_true, includes_iff]
        exact htj
      · rw [includes_iff]
        exact hti
    · have hEq : i = j := by omega
      subst hEq
      exact htj hti

/-! ## Claims on the suggestion panel and on highlighting -/

/-- C7: when the trimmed input value is shorter than `minChars`, `handleInput`
does what `hideSuggestions` alone does: the children of the suggestions
container stay as they were (nothing is rendered), its `active` marker is
removed, and nothing else changes. -/
theorem handleInput_short_query (lower : Str → Str) (canon : Char → Char)
    (self : HealthlineSearch)
    (h : ((trim self.value).length : Int) < self.minChars) :
    handleInput lower canon self = .ok (hideSuggestions self) ∧
    hideSuggestions self
      = { self with suggestionsContainer :=
            self.suggestionsContainer.map (fun c => { c with active := false }) } := by
  constructor
  · unfold handleInput
    simp only [if_pos h]
  · obtain ⟨value, container, minChars, maxResults, categories, searchIndex, href⟩ := self
    cases container <;> rfl

/-- The statement of `handleInput_short_query` at the input value " d " with
the default `minChars`: the panel keeps its one suggestion and is hidden. -/
theorem handleInput_short_query_witness :
    minCharsOf none = 2 ∧
    ((trim " d ".toList).length : Int) < 2 ∧
    (Except.map (fun s => s.suggestionsContainer)
        (handleInput asciiLower asciiCanon (exampleSearch [articleA, articleB] " d "))
      = .ok (some
          { children := [{ noResults := false, active := false, slug := some "A".toList,
                           text := "Managing <strong>Di</strong>abetes".toList,
                           category := some [] }]
            active := false })) :=
  ⟨by decide, by decide,
   by
    rw [(handleInput_short_query asciiLower asciiCanon (exampleSearch [articleA, articleB] " d ")
      (by decide)).1]
    decide⟩

/-- On queries without pattern syntax the model of `highlightMatch` wraps the
occurrences of the query, whatever their case. -/
theorem highlightMatch_plain_query :
    highlightMatch asciiCanon "Managing Diabetes".toList "diabetes".toList
      = .ok "Managing <strong>Diabetes</strong>".toList ∧
    SearchResultsPage.highlightMatch asciiCanon "Diet tips: a DIET plan".toList "diet".toList
      = .ok "<mark>Diet</mark> tips: a <mark>DIET</mark> plan".toList := by
  decide!

/-- C8 on the code: the query is put into the pattern as it is.  With an
unclosed parenthesis, or a lone asterisk, the pattern is malformed and
`new RegExp` throws: both `highlightMatch` methods fail for every text, and so
does `handleInput` once the user has typed "(chol" over an index holding the
title "Vitamin D (cholecalciferol) benefits".  With balanced parentheses there
is no failure, but the parentheses form a group: in "Type (2) diabetes" the
query "(2)" has only its "2" wrapped, not its literal occurrence. -/
theorem highlightMatch_throws_on_syntax_characters :
    (∀ (canon : Char → Char) (text : Str),
      highlightMatch canon text "(chol".toList = .error .syntaxError ∧
      SearchResultsPage.highlightMatch canon text "(chol".toList = .error .syntaxError ∧
      highlightMatch canon text "*".toList = .error .syntaxError ∧
      SearchResultsPage.highlightMatch canon text "*".toList = .error .syntaxError) ∧
    asciiLower "(chol".toList <:+: asciiLower articleVitaminD.title ∧
    handleInput asciiLower asciiCanon (exampleSearch [articleA, articleVitaminD] "(chol")
      = .error .syntaxError ∧
    highlightMatch asciiCanon "Type (2) diabetes".toList "(2)".toList
      = .ok "Type (<strong>2</strong>) diabetes".toList := by
  refine ⟨fun canon text => ⟨rfl, rfl, rfl, rfl⟩, by decide, by decide, by decide!⟩

/-! ## Claims on keyboard navigation -/

/-- C12: ArrowDown over a rendered list `items` of `n` suggestions.  From the
state without active item it makes item 0 the active one when `n > 0` and
changes nothing when `n = 0`; from the state in which item `i` is active it
makes item `i + 1` the active one when `i + 1 < n`; at the last item it changes
nothing, so item `n - 1` stays active.  Nothing but the `active` markers of the
suggestions changes. -/
theorem arrowDown_transitions (encode : Str → Str) (self : HealthlineSearch)
    (items : List Suggestion) :
    (suggestionsOf self = markActive none items → 0 < items.length →
      handleKeydown encode self .arrowDown = withChildren self (markActive (some 0) items) ∧
      suggestionsOf (handleKeydown encode self .arrowDown) = markActive (some 0) items) ∧
    (suggestionsOf self = markActive none items → items.length = 0 →
      handleKeydown encode self .arrowDown = self) ∧
    (∀ i : Nat, suggestionsOf self = markActive (some i) items → i + 1 < items.length →
      handleKeydown encode self .arrowDown = withChildren self (markActive (some (i + 1)) items) ∧
      suggestionsOf (handleKeydown encode self .arrowDown) = markActive (some (i + 1)) items) ∧
    (∀ i : Nat, suggestionsOf self = markActive (some i) items → i + 1 = items.length →
      handleKeydown encode self .arrowDown = self ∧
      suggestionsOf (handleKeydown encode self .arrowDown) = markActive (some i) items) := by
  refine ⟨?_, ?_, ?_, ?_⟩
  · intro hs hn
    have h := handleKeydown_arrowDown encode self items none hs (fun i hi => by cases hi)
    have ha : afterArrowDown items.length none = some 0 := by
      simp only [afterArrowDown]
      rw [if_pos (by omega)]
    rw [ha] at h
    exact ⟨h, by rw [h]; exact suggestionsOf_withChildren_markActive self items none _ hs⟩
  · intro hs hn
    have h := handleKeydown_arrowDown encode self items none hs (fun i hi => by cases hi)
    have ha : afterArrowDown items.length none = none := by
      simp only [afterArrowDown]
      rw [if_neg (by omega)]
    rw [ha, ← hs, withChildren_same] at h
    exact h
  · intro i hs hi
    have h := handleKeydown_arrowDown encode self items (some i) hs
      (fun j hj => by cases hj; omega)
    have ha : afterArrowDown items.length (some i) = some (i + 1) := by
      simp only [afterArrowDown]
      rw [if_pos hi]
    rw [ha] at h
    exact ⟨h, by rw [h]; exact suggestionsOf_withChildren_markActive self items (some i) _ hs⟩
  · intro i hs hi
    have h := handleKeydown_arrowDown encode self items (some i) hs
      (fun j hj => by cases hj; omega)
    have ha : afterArrowDown items.length (some i) = some i := by
      simp only [afterArrowDown]
      rw [if_neg (by omega)]
    rw [ha, ← hs, withChildren_same] at h
    exact ⟨h, by rw [h]; exact hs⟩

/-- The transitions of `arrowDown_transitions` on a panel of three suggestions:
three times ArrowDown activates the items 0, 1 and 2 in turn, a fourth
ArrowDown changes nothing. -/
theorem arrowDown_transitions_example :
    suggestionsOf examplePanel = markActive none (suggestionsOf examplePanel) ∧
    suggestionsOf (handleKeys encodeAscii examplePanel [.arrowDown])
      = markActive (some 0) (suggestionsOf examplePanel) ∧
    suggestionsOf (handleKeys encodeAscii examplePanel [.arrowDown, .arrowDown])
      = markActive (some 1) (suggestionsOf examplePanel) ∧
    suggestionsOf (handleKeys encodeAscii examplePanel [.arrowDown, .arrowDown, .arrowDown])
      = markActive (some 2) (suggestionsOf examplePanel) ∧
    handleKeys encodeAscii examplePanel [.arrowDown, .arrowDown, .arrowDown, .arrowDown]
      = handleKeys encodeAscii examplePanel [.arrowDown, .arrowDown, .arrowDown] :=
  ⟨by decide,
   ((arrowDown_transitions encodeAscii examplePanel (suggestionsOf examplePanel)).1
      (by decide) (by decide)).2,
   by decide, by decide, by decide⟩

/-- C13 fails as stated: with item 0 active, ArrowUp finds no previous sibling
and does nothing, so item 0 is still active afterwards and the state without
active item is not reached. -/
theorem arrowUp_keeps_first_active :
    suggestionsOf (handleKeys encodeAscii examplePanel [.arrowDown])
      = markActive (some 0) (suggestionsOf examplePanel) ∧
    suggestionsOf (handleKeys encodeAscii examplePanel [.arrowDown, .arrowUp])
      = markActive (some 0) (suggestionsOf examplePanel) ∧
    suggestionsOf (handleKeys encodeAscii examplePanel [.arrowDown, .arrowUp])
      ≠ markActive none (suggestionsOf examplePanel) := by
  decide

/-- C13, amended: ArrowUp over a rendered list `items`.  From the state in
which item 0 is active it changes nothing, item 0 stays active; from the state
in which item `i + 1` is active it makes item `i` the active one; from the
state without active item it changes nothing. -/
theorem arrowUp_transitions (encode : Str → Str) (self : HealthlineSearch)
    (items : List Suggestion) :
    (suggestionsOf self = markActive (some 0) items → 0 < items.length →
      handleKeydown encode self .arrowUp = self ∧
      suggestionsOf (handleKeydown encode self .arrowUp) = markActive (some 0) items) ∧
    (∀ i : Nat, suggestionsOf self = markActive (some (i + 1)) items → i + 1 < items.length →
      handleKeydown encode self .arrowUp = withChildren self (markActive (some i) items) ∧
      suggestionsOf (handleKeydown encode self .arrowUp) = markActive (some i) items) ∧
    (suggestionsOf self = markActive none items →
      handleKeydown encode self .arrowUp = self) := by
  refine ⟨?_, ?_, ?_⟩
  · intro hs hn
    have h := handleKeydown_arrowUp encode self items (some 0) hs
      (fun j hj => by cases hj; exact hn)
    simp only [afterArrowUp] at h
    rw [← hs, withChildren_same] at h
    exact ⟨h, by rw [h]; exact hs⟩
  · intro i hs hi
    have h := handleKeydown_arrowUp encode self items (some (i + 1)) hs
      (fun j hj => by cases hj; exact hi)
    simp only [afterArrowUp] at h
    exact ⟨h, by rw [h]; exact suggestionsOf_withChildren_markActive self items _ _ hs⟩
  · intro hs
    have h := handleKeydown_arrowUp encode self items none hs (fun i hi => by cases hi)
    simp only [afterArrowUp] at h
    rw [← hs, withChildren_same] at h
    exact h

/-- The transitions of `arrowUp_transitions` on a panel of three suggestions:
from item 1 ArrowUp activates item 0, and a further ArrowUp changes nothing. -/
theorem arrowUp_transitions_example :
    suggestionsOf (handleKeys encodeAscii examplePanel [.arrowDown, .arrowDown])
      = markActive (some 1) (suggestionsOf examplePanel) ∧
    suggestionsOf (handleKeys encodeAscii examplePanel [.arrowDown, .arrowDown, .arrowUp])
      = markActive (some 0) (suggestionsOf examplePanel) ∧
    handleKeys encodeAscii examplePanel [.arrowDown, .arrowDown, .arrowUp, .arrowUp]
      = handleKeys encodeAscii examplePanel [.arrowDown, .arrowDown, .arrowUp] :=
  ⟨by decide,
   ((arrowUp_transitions encodeAscii
      (handleKeys encodeAscii examplePanel [.arrowDown, .arrowDown])
      (suggestionsOf examplePanel)).2.1 0 (by decide) (by decide)).2,
   by decide⟩

theorem afterArrowDown_valid (n : Nat) (a : Option Nat) (ha : ∀ i, a = some i → i < n) :
    ∀ i, afterArrowDown n a = some i → i < n := by
  intro i hi
  cases a with
  | none =>
    simp only [afterArrowDown] at hi
    split at hi
    · cases hi; omega
    · cases hi
  | some j =>
    simp only [afterArrowDown] at hi
    split at hi
    · cases hi; assumption
    · cases hi; exact ha _ rfl

theorem afterArrowUp_valid (n : Nat) (a : Option Nat) (ha : ∀ i, a = some i → i < n) :
    ∀ i, afterArrowUp a = some i → i < n := by
  intro i hi
  cases a with
  | none => cases hi
  | some j =>
    cases j with
    | zero => cases hi; exact ha 0 rfl
    | succ j =>
      cases hi
      have := ha _ rfl
      omega

/-- Every key event leads from a navigation state over `items` to a navigation
state over `items`. -/
theorem handleKeydown_keeps_state (encode : Str → Str) (items : List Suggestion)
    (self : HealthlineSearch) (key : Key)
    (h : ∃ a : Option Nat, (∀ i, a = some i → i < items.length) ∧
      suggestionsOf self = markActive a items) :
    ∃ b : Option Nat, (∀ i, b = some i → i < items.length) ∧
      suggestionsOf (handleKeydown encode self key) = markActive b items := by
  obtain ⟨a, ha, hs⟩ := h
  cases key with
  | arrowDown =>
    refine ⟨afterArrowDown items.length a, afterArrowDown_valid _ a ha, ?_⟩
    rw [handleKeydown_arrowDown encode self items a hs ha]
    exact suggestionsOf_withChildren_markActive self items a _ hs
  | arrowUp =>
    refine ⟨afterArrowUp a, afterArrowUp_valid _ a ha, ?_⟩
    rw [handleKeydown_arrowUp encode self items a hs ha]
    exact suggestionsOf_withChildren_markActive self items a _ hs
  | enter => exact ⟨a, ha, (suggestionsOf_enter encode self).trans hs⟩
  | escape => exact ⟨a, ha, (suggestionsOf_hideSuggestions self).trans hs⟩
  | other name => exact ⟨a, ha, hs⟩

theorem handleKeys_keeps_state (encode : Str → Str) (items : List Suggestion)
    (keys : List Key) (self : HealthlineSearch)
    (h : ∃ a : Option Nat, (∀ i, a = some i → i < items.length) ∧
      suggestionsOf self = markActive a items) :
    ∃ b : Option Nat, (∀ i, b = some i → i < items.length) ∧
      suggestionsOf (handleKeys encode self keys) = markActive b items := by
  induction keys generalizing self with
  | nil => exact h
  | cons key keys ih =>
    exact ih (handleKeydown encode self key) (handleKeydown_keeps_state encode items self key h)

/-! ## Claims on the navigation invariant and on Enter -/

/-- C14: from a freshly rendered suggestion list, in which no item is active,
every finite sequence of key events leads to a list that differs from the
rendered one in the `active` markers only and is in a navigation state: no
item active, or one item `i` active and every other item not.  So at most one
item is active after every event, and an event that activates an item leaves
the item active before without its marker. -/
theorem keys_keep_single_active (encode : Str → Str) (self : HealthlineSearch)
    (keys : List Key) (hfresh : ∀ s ∈ suggestionsOf self, s.active = false) :
    (∃ a : Option Nat, (∀ i, a = some i → i < (suggestionsOf self).length) ∧
      suggestionsOf (handleKeys encode self keys) = markActive a (suggestionsOf self)) ∧
    ((suggestionsOf (handleKeys encode self keys)).filter (fun s => s.active)).length ≤ 1 := by
  have h := handleKeys_keeps_state encode (suggestionsOf self) keys self
    ⟨none, (fun i hi => by cases hi), (markActive_of_inactive _ hfresh).symm⟩
  refine ⟨h, ?_⟩
  obtain ⟨a, _, hs⟩ := h
  rw [hs]
  exact count_active_markActive a _

/-- The invariant of `keys_keep_single_active` on a panel of three
suggestions after ArrowDown, ArrowDown, Escape, ArrowUp, Enter, ArrowDown. -/
theorem keys_keep_single_active_example :
    (∀ s ∈ suggestionsOf examplePanel, s.active = false) ∧
    ((suggestionsOf (handleKeys encodeAscii examplePanel
        [.arrowDown, .arrowDown, .escape, .arrowUp, .enter, .arrowDown])).filter
      (fun s => s.active)).length ≤ 1 ∧
    suggestionsOf (handleKeys encodeAscii examplePanel
        [.arrowDown, .arrowDown, .escape, .arrowUp, .enter, .arrowDown])
      = markActive (some 1) (suggestionsOf examplePanel) :=
  ⟨by decide,
   (keys_keep_single_active encodeAscii examplePanel
      [.arrowDown, .arrowDown, .escape, .arrowUp, .enter, .arrowDown] (by decide)).2,
   by decide⟩

/-- Enter with item `i` of `items` active: the location becomes the article
page with the `data-slug` of that item. -/
theorem enter_with_active_item (encode : Str → Str) (self : HealthlineSearch)
    (items : List Suggestion) (i : Nat) (item : Suggestion)
    (hs : suggestionsOf self = markActive (some i) items) (hi : items.get? i = some item) :
    (handleKeydown encode self .enter).href
      = "pages/articles/article.html?slug=".toList ++ slugText item.slug := by
  have hlt : i < items.length := by
    rw [List.get?_eq_getElem?] at hi
    exact (List.getElem?_eq_some_iff.mp hi).1
  have hsug : (match self.suggestionsContainer with
      | some container => container.children
      | none => []) = markActive (some i) items := hs
  simp only [handleKeydown, hsug, activeIndex_markActive_some i items hlt, get?_markActive, hi,
    Option.map_some']

/-- Enter without active item: the location becomes the results page for the
trimmed value of the input, when that is not empty. -/
theorem enter_without_active_item (encode : Str → Str) (self : HealthlineSearch)
    (items : List Suggestion)
    (hs : suggestionsOf self = markActive none items) (hq : trim self.value ≠ []) :
    (handleKeydown encode self .enter).href
      = "pages/search-results.html?q=".toList ++ encode (trim self.value) := by
  have hsug : (match self.suggestionsContainer with
      | some container => container.children
      | none => []) = markActive none items := hs
  simp only [handleKeydown, hsug, activeIndex_markActive_none, performSearch]
  rw [if_pos hq]

/-- The suggestions rendered for a list of results carry the slugs of the
results, in order, and none is active or a placeholder. -/
theorem renderSuggestions_slugs (canon : Char → Char) (categories : List Category)
    (query : Str) (results : List SearchResult) (children : List Suggestion)
    (h : renderSuggestions canon categories query results = .ok children) :
    children.map (fun s => s.slug) = results.map (fun r => some r.slug) ∧
    (∀ s ∈ children, s.active = false ∧ s.noResults = false) := by
  induction results generalizing children with
  | nil =>
    rw [renderSuggestions] at h
    cases h
    exact ⟨rfl, fun s hs => by cases hs⟩
  | cons r rs ih =>
    rw [renderSuggestions] at h
    cases hr : renderSuggestion canon categories query r with
    | error e => rw [hr] at h; cases h
    | ok s =>
      rw [hr] at h
      cases hrs : renderSuggestions canon categories query rs with
      | error e => rw [hrs] at h; cases h
      | ok ss =>
        rw [hrs] at h
        cases h
        have hs : s.slug = some r.slug ∧ s.active = false ∧ s.noResults = false := by
          unfold renderSuggestion at hr
          split at hr
          · cases hr
          · cases hr
            exact ⟨rfl, rfl, rfl⟩
        obtain ⟨ih1, ih2⟩ := ih ss hrs
        refine ⟨by simp [hs.1, ih1], ?_⟩
        intro t ht
        rcases List.mem_cons.mp ht with rfl | ht
        · exact hs.2
        · exact ih2 t ht

/-- C15 on the code: when the search has no result, the panel holds the
placeholder, which is a `search-suggestion` without `data-slug`.  ArrowDown
makes it the active item, and Enter then sets the location to the article
page with the slug `undefined`, where the click handler of the same element
does nothing for want of a slug. -/
theorem enter_on_placeholder_navigates_to_undefined :
    Except.map suggestionsOf
        (handleInput asciiLower asciiCanon (exampleSearch [articleA, articleB] "zzz"))
      = .ok [noResultsPlaceholder "zzz".toList] ∧
    Except.map (fun s => suggestionsOf (handleKeys encodeAscii s [.arrowDown]))
        (handleInput asciiLower asciiCanon (exampleSearch [articleA, articleB] "zzz"))
      = .ok (markActive (some 0) [noResultsPlaceholder "zzz".toList]) ∧
    Except.map (fun s => (handleKeys encodeAscii s [.arrowDown, .enter]).href)
        (handleInput asciiLower asciiCanon (exampleSearch [articleA, articleB] "zzz"))
      = .ok "pages/articles/article.html?slug=undefined".toList := by
  decide

/-! ## Claims on the results page, the index and the category label -/

/-- C11: with the parameter `q` absent or empty `displayResults` does what
`showNoQuery` does: the info container shows "Enter a search term to find
articles.", the results container is emptied, nothing is thrown, and the
results container is not in the zero-results state.  With a non-empty `q` it
does what `renderResults` does with the list `searchArticles` returns for `q`:
the info container shows the count summary for the length of that list; when
the list is empty the results container shows the zero-results state, and
otherwise it shows the grid of the cards rendered for the list. -/
theorem displayResults_states (lower : Str → Str) (canon : Char → Char)
    (page : SearchResultsPage) :
    (∀ q : Option Str, q = none ∨ q = some [] →
      displayResults lower canon page q = (showNoQuery page, none)) ∧
    (showNoQuery page).infoContainer
      = page.infoContainer.map (fun _ => InfoContent.text enterSearchTerm) ∧
    (showNoQuery page).resultsContainer
      = page.resultsContainer.map (fun _ => ResultsContent.html []) ∧
    (∀ query : Str, (showNoQuery page).resultsContainer ≠ some (ResultsContent.noResults query)) ∧
    (∀ query : Str, query ≠ [] →
      displayResults lower canon page (some query)
        = renderResults canon page (searchArticles lower page.articles query) query ∧
      (displayResults lower canon page (some query)).1.infoContainer
        = page.infoContainer.map (fun _ =>
            InfoContent.found (searchArticles lower page.articles query).length
              (decide ((searchArticles lower page.articles query).length ≠ 1)) query) ∧
      ((searchArticles lower page.articles query).length = 0 →
        (displayResults lower canon page (some query)).1.resultsContainer
          = page.resultsContainer.map (fun _ => ResultsContent.noResults query) ∧
        (displayResults lower canon page (some query)).2 = none) ∧
      (∀ cards : List Card, (searchArticles lower page.articles query).length ≠ 0 →
        renderCards canon page.categories query (searchArticles lower page.articles query)
          = .ok cards →
        (displayResults lower canon page (some query)).1.resultsContainer
          = page.resultsContainer.map (fun _ => ResultsContent.grid cards) ∧
        (displayResults lower canon page (some query)).2 = none)) := by
  refine ⟨?_, rfl, rfl, ?_, ?_⟩
  · intro q hq
    rcases hq with rfl | rfl <;> rfl
  · intro query h
    unfold showNoQuery at h
    cases hr : page.resultsContainer with
    | none => rw [hr] at h; cases h
    | some r => rw [hr] at h; cases h
  · intro query hq
    have hd : displayResults lower canon page (some query)
        = renderResults canon page (searchArticles lower page.articles query) query := by
      unfold displayResults
      simp only [if_pos hq, if_neg hq]
    rw [hd]
    refine ⟨rfl, ?_, ?_, ?_⟩
    · unfold renderResults
      simp only
      cases page.resultsContainer with
      | none => rfl
      | some r =>
        simp only
        split
        · rfl
        · split <;> rfl
    · intro hn
      unfold renderResults
      simp only
      cases page.resultsContainer with
      | none => simp
      | some r =>
        simp [hn]
    · intro cards hn hcards
      unfold renderResults
      simp only
      cases page.resultsContainer with
      | none => simp
      | some r =>
        simp [hn, hcards]

/-- The states of `displayResults_states` on a page of two articles: the
no-query state for the empty query, the zero-results state for "zzz", and one
card for "eating". -/
theorem displayResults_example :
    (displayResults asciiLower asciiCanon (examplePage [articleNutrition, articleA])
        (some [])).1.infoContainer = some (InfoContent.text enterSearchTerm) ∧
    (displayResults asciiLower asciiCanon (examplePage [articleNutrition, articleA])
        (some [])).1.resultsContainer = some (ResultsContent.html []) ∧
    (displayResults asciiLower asciiCanon (examplePage [articleNutrition, articleA])
        (some "zzz".toList)).1.infoContainer
      = some (InfoContent.found 0 true "zzz".toList) ∧
    (displayResults asciiLower asciiCanon (examplePage [articleNutrition, articleA])
        (some "zzz".toList)).1.resultsContainer
      = some (ResultsContent.noResults "zzz".toList) ∧
    (displayResults asciiLower asciiCanon (examplePage [articleNutrition, articleA])
        (some "eating".toList)).1.infoContainer
      = some (InfoContent.found 1 false "eating".toList) := by
  decide

/-- C16: `buildIndex` yields an index of the length of the collection whose
entry at each position is derived from the article at that position alone:
`id`, `slug`, `image`, `readTime` and `date` are the article's, `title`,
`excerpt`, `category` and `author` are the article's lowercased, `tags` are the
article's tags lowercased in the same order, `originalTitle` and
`originalExcerpt` are the article's title and excerpt.  The elements `search`
returns are entries of the index with their score, and `handleInput`, which
runs `search`, and `handleKeydown` leave the index of the instance as it is. -/
theorem buildIndex_projection (lower : Str → Str) (articles : List Article) :
    (buildIndex lower articles).length = articles.length ∧
    (∀ (i : Nat) (h : i < articles.length), ∃ e : IndexEntry,
      (buildIndex lower articles).get? i = some e ∧
      e.id = (articles.get ⟨i, h⟩).id ∧ e.slug = (articles.get ⟨i, h⟩).slug ∧
      e.image = (articles.get ⟨i, h⟩).image ∧ e.readTime = (articles.get ⟨i, h⟩).readTime ∧
      e.date = (articles.get ⟨i, h⟩).date ∧
      e.title = lower (articles.get ⟨i, h⟩).title ∧
      e.excerpt = lower (articles.get ⟨i, h⟩).excerpt ∧
      e.category = lower (articles.get ⟨i, h⟩).category ∧
      e.author = lower (articles.get ⟨i, h⟩).author ∧
      e.tags = (articles.get ⟨i, h⟩).tags.map lower ∧
      e.originalTitle = (articles.get ⟨i, h⟩).title ∧
      e.originalExcerpt = (articles.get ⟨i, h⟩).excerpt) ∧
    (∀ (maxResults : Int) (query : Str),
      ∀ r ∈ search lower (buildIndex lower articles) maxResults query,
        r.toIndexEntry ∈ buildIndex lower articles) ∧
    (∀ (canon : Char → Char) (self after : HealthlineSearch),
      handleInput lower canon self = .ok after → after.searchIndex = self.searchIndex) ∧
    (∀ (encode : Str → Str) (self : HealthlineSearch) (key : Key),
      (handleKeydown encode self key).searchIndex = self.searchIndex) := by
  refine ⟨by simp [buildIndex], ?_, ?_, ?_, ?_⟩
  · intro i h
    refine ⟨indexEntry lower (articles.get ⟨i, h⟩), ?_, rfl, rfl, rfl, rfl, rfl, rfl, rfl, rfl, rfl,
      rfl, rfl, rfl⟩
    unfold buildIndex
    rw [List.get?_eq_getElem?, List.getElem?_map, List.getElem?_eq_getElem h]
    rfl
  · intro maxResults query r hr
    exact (mem_scored _ _ _ r (mem_search _ _ _ _ r hr).1).1
  · intro canon self after h
    unfold handleInput at h
    simp only at h
    split at h
    · cases h
      obtain ⟨value, container, minChars, maxResults, categories, searchIndex, href⟩ := self
      cases container <;> rfl
    · unfold showSuggestions at h
      split at h
      · cases h; rfl
      · split at h
        · cases h; rfl
        · split at h
          · cases h
          · cases h; rfl
  · intro encode self key
    have hw : ∀ children, (withChildren self children).searchIndex = self.searchIndex := by
      intro children
      unfold withChildren
      split <;> rfl
    have hh : (hideSuggestions self).searchIndex = self.searchIndex := by
      unfold hideSuggestions
      split <;> rfl
    have hp : (performSearch encode self).searchIndex = self.searchIndex := by
      unfold performSearch
      simp only
      split <;> rfl
    unfold handleKeydown
    simp only
    cases key with
    | arrowDown =>
      simp only
      split
      · split
        · exact hw _
        · rfl
      · split
        · exact hw _
        · rfl
    | arrowUp =>
      simp only
      split
      · rfl
      · split
        · exact hw _
        · rfl
    | enter =>
      simp only
      split
      · split <;> rfl
      · exact hp
    | escape => exact hh
    | other name => rfl

/-- The category label of a rendered suggestion is looked up by the category
of the search result, which is the lowercased category of the article. -/
theorem renderSuggestion_category (canon : Char → Char) (categories : List Category)
    (query : Str) (result : SearchResult) (s : Suggestion)
    (h : renderSuggestion canon categories query result = .ok s) :
    s.category = some (getCategoryName categories result.category) := by
  unfold renderSuggestion at h
  split at h
  · cases h
  · cases h
    rfl

/-- On a lookup miss `getCategoryName` returns the identifier it was given. -/
theorem getCategoryName_miss (categories : List Category) (categoryId : Str) :
    (∀ c ∈ categories, c.id ≠ categoryId) → getCategoryName categories categoryId = categoryId := by
  intro h
  unfold getCategoryName
  have : categories.find? (fun c => c.id == categoryId) = none := by
    rw [List.find?_eq_none]
    intro c hc
    simpa using h c hc
  rw [this]

/-- C17 on the code: the label of a suggestion is looked up with the
lowercased category of the index entry.  For an article of category
"Nutrition" and the Category record ("Nutrition", "Nutrition & Diet") the
suggestion is labelled "nutrition", neither the display name nor the raw
identifier, while `getCategoryName` on the raw identifier, as the results page
calls it, gives "Nutrition & Diet"; without any Category record the label is
"nutrition" where the raw identifier is "Nutrition". -/
theorem suggestion_label_uses_lowercased_category :
    Except.map (fun s => (suggestionsOf s).map (fun x => x.category))
        (handleInput asciiLower asciiCanon
          (exampleSearchWithCategories [articleNutrition] "eating"))
      = .ok [some "nutrition".toList] ∧
    getCategoryName exampleCategories articleNutrition.category = "Nutrition & Diet".toList ∧
    (match (displayResults asciiLower asciiCanon (examplePage [articleNutrition])
        (some "eating".toList)).1.resultsContainer with
      | some (ResultsContent.grid cards) => cards.map (fun card => card.category)
      | _ => []) = ["Nutrition & Diet".toList] ∧
    Except.map (fun s => (suggestionsOf s).map (fun x => x.category))
        (handleInput asciiLower asciiCanon (exampleSearch [articleNutrition] "eating"))
      = .ok [some "nutrition".toList] ∧
    articleNutrition.category = "Nutrition".toList := by
  decide!

/-- C18: every article `searchArticles` returns for a query is an article of
the collection whose index entry gets a strictly positive score from `search`
for the same query, so it is among the scored entries `search` keeps before it
sorts and slices. -/
theorem searchArticles_subset_candidates (lower : Str → Str) (articles : List Article)
    (query : Str) (a : Article) (ha : a ∈ searchArticles lower articles query) :
    0 < scoreOf (indexEntry lower a) (lower query) (splitWhitespace (lower query)) ∧
    indexEntry lower a ∈ buildIndex lower articles ∧
    (∃ r ∈ (scored (buildIndex lower articles) (lower query)
          (splitWhitespace (lower query))).filter (fun r => r.score > 0),
      r.toIndexEntry = indexEntry lower a) := by
  have hmem := (searchArticles_perm lower articles query).mem_iff.mp ha
  rw [List.mem_filter, articleMatches_iff] at hmem
  obtain ⟨hin, hmatch⟩ := hmem
  have hpos : 0 < scoreOf (indexEntry lower a) (lower query) (splitWhitespace (lower query)) := by
    rw [scoreOf_eq_claimedScore]
    unfold claimedScore
    have hsum : 0 ≤ ((splitWhitespace (lower query)).map (fun t =>
        (if t <:+: (indexEntry lower a).title then (5 : Int) else 0)
          + (if t <:+: (indexEntry lower a).excerpt then 2 else 0))).sum := by
      apply List.sum_nonneg
      intro x hx
      rw [List.mem_map] at hx
      obtain ⟨t, _, rfl⟩ := hx
      split <;> split <;> norm_num
    have h1 : (0 : Int) ≤ if lower query <:+: (indexEntry lower a).title then 130 else 0 := by
      split <;> norm_num
    have h2 : (0 : Int) ≤ if lower query <+: (indexEntry lower a).title then 50 else 0 := by
      split <;> norm_num
    have h3 : (0 : Int) ≤ if lower query <:+: (indexEntry lower a).category then 20 else 0 := by
      split <;> norm_num
    have h4 : (0 : Int) ≤ if lower query <:+: (indexEntry lower a).excerpt then 10 else 0 := by
      split <;> norm_num
    have h5 : (0 : Int) ≤ if lower query <:+: (indexEntry lower a).author then 5 else 0 := by
      split <;> norm_num
    have h6 : (0 : Int) ≤ (((indexEntry lower a).tags.filter
        (fun tag => decide (lower query <:+: tag))).length : Int) := Int.natCast_nonneg _
    rcases hmatch with ht | he | hc | ⟨tag, htag, hsub⟩
    · have : lower query <:+: (indexEntry lower a).title := ht
      rw [if_pos this] at h1 ⊢
      linarith
    · have : lower query <:+: (indexEntry lower a).excerpt := he
      rw [if_pos this] at h4 ⊢
      linarith
    · have : lower query <:+: (indexEntry lower a).category := hc
      rw [if_pos this] at h3 ⊢
      linarith
    · have hin' : lower tag ∈ (indexEntry lower a).tags.filter
          (fun tag => decide (lower query <:+: tag)) := by
        rw [List.mem_filter]
        exact ⟨List.mem_map.mpr ⟨tag, htag, rfl⟩, by simpa using hsub⟩
      have hlen : (1 : Int) ≤ (((indexEntry lower a).tags.filter
          (fun tag => decide (lower query <:+: tag))).length : Int) := by
        have := List.length_pos_of_mem hin'
        omega
      linarith
  have hidx : indexEntry lower a ∈ buildIndex lower articles :=
    List.mem_map.mpr ⟨a, hin, rfl⟩
  refine ⟨hpos, hidx, ?_⟩
  refine ⟨{ indexEntry lower a with
      score := scoreOf (indexEntry lower a) (lower query) (splitWhitespace (lower query)) },
    ?_, rfl⟩
  rw [List.mem_filter]
  refine ⟨List.mem_map.mpr ⟨indexEntry lower a, hidx, rfl⟩, ?_⟩
  simpa using hpos

/-- The statement of `searchArticles_subset_candidates` at the entry `B` of the
specification's example, which the results page finds for "diabetes" through
its tag and which `search` scores 15. -/
theorem searchArticles_subset_candidates_witness :
    articleB ∈ searchArticles asciiLower [articleA, articleB] "diabetes".toList ∧
    0 < scoreOf (indexEntry asciiLower articleB) (asciiLower "diabetes".toList)
      (splitWhitespace (asciiLower "diabetes".toList)) ∧
    scoreOf (indexEntry asciiLower articleB) (asciiLower "diabetes".toList)
      (splitWhitespace (asciiLower "diabetes".toList)) = 15 :=
  ⟨by decide,
   (searchArticles_subset_candidates asciiLower [articleA, articleB] "diabetes".toList articleB
      (by decide)).1,
   by decide⟩

end HealthLine
